import Mathlib

/-!
Verification development for the Claude Code log processor
(`src/processor/process_logs.py`).

The embedding models the ingestion pipeline of `LogProcessor`:
JSON value model (for Python's `json` module), the format detector
`_parse_claude_code_log`, the three normalizers, `_extract_content`,
`_generate_tags`, the content-hash deduplicator `_is_processed`, the
transactional importer `_import_session`, and the per-file scan loop of
`process_all`.  Machine-level services of the Python runtime that the
code calls (the `json` parser, `str`/`repr`, dict lookup with
truthiness, MD5) are modelled by executable Lean functions noted at
their definitions.
-/

/-- Model of a Python value produced by `json.loads`.
Numbers are restricted to integers (the log fields the processor reads
are integer token counts and string timestamps); floats are outside the
modelled grammar. -/
inductive Json where
  | null : Json
  | bool (b : Bool) : Json
  | num (n : Int) : Json
  | str (s : String) : Json
  | arr (xs : List Json) : Json
  | obj (kvs : List (String × Json)) : Json
deriving Repr

mutual

/-- Decidable equality on the JSON model (sqlite value comparison and
Python `==`/set membership on JSON-derived values). -/
def jsonDecEq : (a b : Json) → Decidable (a = b)
  | Json.null, Json.null => isTrue rfl
  | Json.bool a, Json.bool b =>
    match decEq a b with
    | isTrue h => isTrue (by rw [h])
    | isFalse h => isFalse (by intro he; cases he; exact h rfl)
  | Json.num a, Json.num b =>
    match decEq a b with
    | isTrue h => isTrue (by rw [h])
    | isFalse h => isFalse (by intro he; cases he; exact h rfl)
  | Json.str a, Json.str b =>
    match decEq a b with
    | isTrue h => isTrue (by rw [h])
    | isFalse h => isFalse (by intro he; cases he; exact h rfl)
  | Json.arr xs, Json.arr ys =>
    match jsonDecEqList xs ys with
    | isTrue h => isTrue (by rw [h])
    | isFalse h => isFalse (by intro he; cases he; exact h rfl)
  | Json.obj xs, Json.obj ys =>
    match jsonDecEqObj xs ys with
    | isTrue h => isTrue (by rw [h])
    | isFalse h => isFalse (by intro he; cases he; exact h rfl)
  | Json.null, Json.bool _ => isFalse (fun h => nomatch h)
  | Json.null, Json.num _ => isFalse (fun h => nomatch h)
  | Json.null, Json.str _ => isFalse (fun h => nomatch h)
  | Json.null, Json.arr _ => isFalse (fun h => nomatch h)
  | Json.null, Json.obj _ => isFalse (fun h => nomatch h)
  | Json.bool _, Json.null => isFalse (fun h => nomatch h)
  | Json.bool _, Json.num _ => isFalse (fun h => nomatch h)
  | Json.bool _, Json.str _ => isFalse (fun h => nomatch h)
  | Json.bool _, Json.arr _ => isFalse (fun h => nomatch h)
  | Json.bool _, Json.obj _ => isFalse (fun h => nomatch h)
  | Json.num _, Json.null => isFalse (fun h => nomatch h)
  | Json.num _, Json.bool _ => isFalse (fun h => nomatch h)
  | Json.num _, Json.str _ => isFalse (fun h => nomatch h)
  | Json.num _, Json.arr _ => isFalse (fun h => nomatch h)
  | Json.num _, Json.obj _ => isFalse (fun h => nomatch h)
  | Json.str _, Json.null => isFalse (fun h => nomatch h)
  | Json.str _, Json.bool _ => isFalse (fun h => nomatch h)
  | Json.str _, Json.num _ => isFalse (fun h => nomatch h)
  | Json.str _, Json.arr _ => isFalse (fun h => nomatch h)
  | Json.str _, Json.obj _ => isFalse (fun h => nomatch h)
  | Json.arr _, Json.null => isFalse (fun h => nomatch h)
  | Json.arr _, Json.bool _ => isFalse (fun h => nomatch h)
  | Json.arr _, Json.num _ => isFalse (fun h => nomatch h)
  | Json.arr _, Json.str _ => isFalse (fun h => nomatch h)
  | Json.arr _, Json.obj _ => isFalse (fun h => nomatch h)
  | Json.obj _, Json.null => isFalse (fun h => nomatch h)
  | Json.obj _, Json.bool _ => isFalse (fun h => nomatch h)
  | Json.obj _, Json.num _ => isFalse (fun h => nomatch h)
  | Json.obj _, Json.str _ => isFalse (fun h => nomatch h)
  | Json.obj _, Json.arr _ => isFalse (fun h => nomatch h)

def jsonDecEqList : (xs ys : List Json) → Decidable (xs = ys)
  | [], [] => isTrue rfl
  | [], _ :: _ => isFalse (fun h => nomatch h)
  | _ :: _, [] => isFalse (fun h => nomatch h)
  | x :: xs, y :: ys =>
    match jsonDecEq x y with
    | isFalse h1 => isFalse (by intro he; cases he; exact h1 rfl)
    | isTrue h1 =>
      match jsonDecEqList xs ys with
      | isTrue h2 => isTrue (by rw [h1, h2])
      | isFalse h2 => isFalse (by intro he; cases he; exact h2 rfl)

def jsonDecEqObj : (xs ys : List (String × Json)) → Decidable (xs = ys)
  | [], [] => isTrue rfl
  | [], _ :: _ => isFalse (fun h => nomatch h)
  | _ :: _, [] => isFalse (fun h => nomatch h)
  | (k1, v1) :: xs, (k2, v2) :: ys =>
    match decEq k1 k2 with
    | isFalse h1 => isFalse (by intro he; cases he; exact h1 rfl)
    | isTrue h1 =>
      match jsonDecEq v1 v2 with
      | isFalse h2 => isFalse (by intro he; cases he; exact h2 rfl)
      | isTrue h2 =>
        match jsonDecEqObj xs ys with
        | isTrue h3 => isTrue (by rw [h1, h2, h3])
        | isFalse h3 => isFalse (by intro he; cases he; exact h3 rfl)

end

instance : DecidableEq Json := jsonDecEq

/-- Last-wins key lookup: Python dict construction keeps the last
occurrence of a duplicated key, so lookup returns the last binding. -/
def lookupLast : List (String × Json) → String → Option Json
  | [], _ => none
  | (k, v) :: rest, key =>
    match lookupLast rest key with
    | some r => some r
    | none => if k = key then some v else none

/-- Model of `d.get(k)` returning the stored value when the key is
present (even when that value is `None`). -/
def Json.getKey? : Json → String → Option Json
  | Json.obj kvs, k => lookupLast kvs k
  | _, _ => none

/-- Model of `d.get(k, default)`. -/
def Json.getD (j : Json) (k : String) (d : Json) : Json :=
  (j.getKey? k).getD d

/-- Model of `d.get(k1, d.get(k2))`: the value bound to `k1` when the
key is present (even if `None`), else the value bound to `k2`, else
`None`. -/
def pyGet2 (j : Json) (k1 k2 : String) : Json :=
  j.getD k1 (j.getD k2 Json.null)

def Json.isObj : Json → Bool
  | Json.obj _ => true
  | _ => false

/-- Model of `k in d` for a Python dict. -/
def Json.hasKey (j : Json) (k : String) : Bool :=
  (j.getKey? k).isSome

/-- Python truthiness of a JSON-derived value. -/
def Json.truthy : Json → Bool
  | Json.null => false
  | Json.bool b => b
  | Json.num n => n != 0
  | Json.str s => s != ""
  | Json.arr xs => !xs.isEmpty
  | Json.obj kvs => !kvs.isEmpty

mutual
/-- Model of Python `repr` on a JSON-derived value (used by `str` for
containers).  String escaping inside `repr` is not modelled. -/
def pyRepr : Json → String
  | Json.null => "None"
  | Json.bool true => "True"
  | Json.bool false => "False"
  | Json.num n => toString n
  | Json.str s => "'" ++ s ++ "'"
  | Json.arr xs => "[" ++ pyReprList xs ++ "]"
  | Json.obj kvs => "\x7b" ++ pyReprObj kvs ++ "\x7d"

def pyReprList : List Json → String
  | [] => ""
  | [x] => pyRepr x
  | x :: xs => pyRepr x ++ ", " ++ pyReprList xs

def pyReprObj : List (String × Json) → String
  | [] => ""
  | [(k, v)] => "'" ++ k ++ "': " ++ pyRepr v
  | (k, v) :: kvs => "'" ++ k ++ "': " ++ pyRepr v ++ ", " ++ pyReprObj kvs
end

/-- Model of Python `str` on a JSON-derived value (used by f-strings
and the `str(content)` fallback). -/
def pyStr : Json → String
  | Json.str s => s
  | j => pyRepr j

/-- JSON string-literal escaping used by `json.dumps`. -/
def escJsonChars : List Char → List Char
  | [] => []
  | c :: cs =>
    if c = '"' then '\\' :: '"' :: escJsonChars cs
    else if c = '\\' then '\\' :: '\\' :: escJsonChars cs
    else if c = '\n' then '\\' :: 'n' :: escJsonChars cs
    else if c = '\t' then '\\' :: 't' :: escJsonChars cs
    else if c = '\r' then '\\' :: 'r' :: escJsonChars cs
    else c :: escJsonChars cs

def jsonQuote (s : String) : String :=
  "\"" ++ String.mk (escJsonChars s.toList) ++ "\""

mutual
/-- Model of `json.dumps` with its default separators. -/
def Json.dumps : Json → String
  | Json.null => "null"
  | Json.bool true => "true"
  | Json.bool false => "false"
  | Json.num n => toString n
  | Json.str s => jsonQuote s
  | Json.arr xs => "[" ++ dumpsList xs ++ "]"
  | Json.obj kvs => "\x7b" ++ dumpsObj kvs ++ "\x7d"

def dumpsList : List Json → String
  | [] => ""
  | [x] => Json.dumps x
  | x :: xs => Json.dumps x ++ ", " ++ dumpsList xs

def dumpsObj : List (String × Json) → String
  | [] => ""
  | [(k, v)] => jsonQuote k ++ ": " ++ Json.dumps v
  | (k, v) :: kvs => jsonQuote k ++ ": " ++ Json.dumps v ++ ", " ++ dumpsObj kvs
end

/-- Model of Python `int += v` on a JSON-derived value: succeeds on
ints and bools (bools add as 0/1), raises `TypeError` otherwise. -/
def pyAddInt (acc : Int) (v : Json) : Except String Int :=
  match v with
  | Json.num n => Except.ok (acc + n)
  | Json.bool b => Except.ok (acc + (if b then 1 else 0))
  | _ => Except.error "TypeError: unsupported operand"

/-! Structural models of the Python string operations the processor
uses (`strip`, `lower`, `split`, slicing, `in`, `startswith`,
`replace`).  They are written by structural recursion on the character
list so that every claim witness evaluates inside the kernel. -/

def isWsChar (c : Char) : Bool :=
  c = ' ' || c = '\t' || c = '\n' || c = '\r'

def dropWsL : List Char → List Char
  | [] => []
  | c :: cs => if isWsChar c then dropWsL cs else c :: cs

/-- Model of Python `str.strip()`. -/
def pyStrip (s : String) : String :=
  String.mk ((dropWsL (dropWsL s.toList).reverse).reverse)

/-- Model of Python `str.lower()` (ASCII case folding). -/
def pyLower (s : String) : String :=
  String.mk (s.toList.map Char.toLower)

/-- Model of Python `s[:n]` on a string. -/
def pyTake (s : String) (n : Nat) : String :=
  String.mk (s.toList.take n)

def splitOnCharAux (c : Char) : List Char → List Char → List String
  | [], acc => [String.mk acc.reverse]
  | x :: xs, acc =>
    if x = c then String.mk acc.reverse :: splitOnCharAux c xs []
    else splitOnCharAux c xs (x :: acc)

/-- Model of Python `s.split(c)` for a one-character separator. -/
def splitOnChar (c : Char) (s : String) : List String :=
  splitOnCharAux c s.toList []

def afterCharL (c : Char) : List Char → List Char
  | [] => []
  | x :: xs => if x = c then xs else afterCharL c xs

/-- Substring test on character lists (prefix step of Python
`needle in hay`). -/
def startsWithL : List Char → List Char → Bool
  | _, [] => true
  | [], _ :: _ => false
  | a :: as, b :: bs => a == b && startsWithL as bs

def containsL (hay needle : List Char) : Bool :=
  match hay with
  | [] => needle.isEmpty
  | _ :: t => startsWithL hay needle || containsL t needle

/-- Model of Python `needle in hay` on strings. -/
def strContains (hay needle : String) : Bool :=
  containsL hay.toList needle.toList

/-- Model of Python `s.startswith(p)`. -/
def pyStartsWith (s p : String) : Bool :=
  startsWithL s.toList p.toList

/-- Model of Python `s.replace(old, new)` for one-character
patterns. -/
def replaceChar (s : String) (old new : Char) : String :=
  String.mk (s.toList.map (fun ch => if ch = old then new else ch))

/-! JSON parser: an executable model of `json.loads`.  It covers the
null/bool/integer/string/array/object fragment; whitespace handling and
duplicate-key (last-wins) behaviour follow Python.  Fuel bounds the
recursion; `json_loads` supplies fuel ample for its input. -/

def skipWs : List Char → List Char
  | [] => []
  | c :: cs => if isWsChar c then skipWs cs else c :: cs

def parseStringBody : List Char → List Char → Option (String × List Char)
  | [], _ => none
  | '\\' :: e :: cs, acc =>
    if e = '"' then parseStringBody cs ('"' :: acc)
    else if e = '\\' then parseStringBody cs ('\\' :: acc)
    else if e = '/' then parseStringBody cs ('/' :: acc)
    else if e = 'n' then parseStringBody cs ('\n' :: acc)
    else if e = 't' then parseStringBody cs ('\t' :: acc)
    else if e = 'r' then parseStringBody cs ('\r' :: acc)
    else if e = 'b' then parseStringBody cs ('\x08' :: acc)
    else if e = 'f' then parseStringBody cs ('\x0c' :: acc)
    else none
  | '"' :: cs, acc => some (String.mk acc.reverse, cs)
  | c :: cs, acc => parseStringBody cs (c :: acc)

def takeDigits : List Char → List Char × List Char
  | [] => ([], [])
  | c :: cs =>
    if c.isDigit then
      let (ds, rest) := takeDigits cs
      (c :: ds, rest)
    else ([], c :: cs)

def digitsToNat (ds : List Char) : Nat :=
  ds.foldl (fun acc c => acc * 10 + (c.toNat - 48)) 0

def parseNumber (cs : List Char) : Option (Int × List Char) :=
  let (neg, cs1) := match cs with
    | '-' :: t => (true, t)
    | _ => (false, cs)
  match takeDigits cs1 with
  | ([], _) => none
  | (ds, rest) =>
    let n : Int := Int.ofNat (digitsToNat ds)
    some (if neg then -n else n, rest)

mutual
def parseValue : Nat → List Char → Option (Json × List Char)
  | 0, _ => none
  | Nat.succ fuel, cs =>
    match cs with
    | 'n' :: 'u' :: 'l' :: 'l' :: rest => some (Json.null, rest)
    | 't' :: 'r' :: 'u' :: 'e' :: rest => some (Json.bool true, rest)
    | 'f' :: 'a' :: 'l' :: 's' :: 'e' :: rest => some (Json.bool false, rest)
    | '"' :: rest =>
      match parseStringBody rest [] with
      | some (s, rest2) => some (Json.str s, rest2)
      | none => none
    | '[' :: rest =>
      let rest1 := skipWs rest
      match rest1 with
      | ']' :: rest2 => some (Json.arr [], rest2)
      | _ =>
        match parseElems fuel rest1 with
        | some (xs, rest2) => some (Json.arr xs, rest2)
        | none => none
    | '\x7b' :: rest =>
      let rest1 := skipWs rest
      match rest1 with
      | '\x7d' :: rest2 => some (Json.obj [], rest2)
      | _ =>
        match parseMembers fuel rest1 with
        | some (kvs, rest2) => some (Json.obj kvs, rest2)
        | none => none
    | _ =>
      match parseNumber cs with
      | some (n, rest) => some (Json.num n, rest)
      | none => none

def parseElems : Nat → List Char → Option (List Json × List Char)
  | 0, _ => none
  | Nat.succ fuel, cs =>
    match parseValue fuel cs with
    | none => none
    | some (v, rest) =>
      match skipWs rest with
      | ',' :: rest2 =>
        (match parseElems fuel (skipWs rest2) with
         | some (xs, rest3) => some (v :: xs, rest3)
         | none => none)
      | ']' :: rest2 => some ([v], rest2)
      | _ => none

def parseMembers : Nat → List Char → Option (List (String × Json) × List Char)
  | 0, _ => none
  | Nat.succ fuel, cs =>
    match cs with
    | '"' :: rest =>
      (match parseStringBody rest [] with
       | none => none
       | some (k, rest1) =>
         match skipWs rest1 with
         | ':' :: rest2 =>
           (match parseValue fuel (skipWs rest2) with
            | none => none
            | some (v, rest3) =>
              match skipWs rest3 with
              | ',' :: rest4 =>
                (match parseMembers fuel (skipWs rest4) with
                 | some (kvs, rest5) => some ((k, v) :: kvs, rest5)
                 | none => none)
              | '\x7d' :: rest4 => some ([(k, v)], rest4)
              | _ => none)
         | _ => none)
    | _ => none
end

/-- Model of `json.loads`: parse one JSON value surrounded by optional
whitespace; anything else raises (returns `none`). -/
def json_loads (s : String) : Option Json :=
  match parseValue (2 * s.length + 4) (skipWs s.toList) with
  | some (v, rest) => if skipWs rest = [] then some v else none
  | none => none

example : json_loads "null" = some Json.null := by decide
example : json_loads " \x7b\"a\": 1, \"b\": [true, \"x\"]\x7d " =
    some (Json.obj [("a", Json.num 1), ("b", Json.arr [Json.bool true, Json.str "x"])]) := by
  decide
example : json_loads "" = none := by decide
example : json_loads "hello" = none := by decide

/-! Canonical in-memory data model: `ParsedSession` and its parts, as
produced by the three normalizers (spec section 3, source
`_normalize_*` functions).  Fields whose Python values may be any
JSON-derived value (or `None`) are typed `Json`. -/

/-- One normalized message dict as built by the normalizers. -/
structure NormMessage where
  sequence : Int
  timestamp : Json
  role : Json
  content : String
  content_type : String
deriving DecidableEq, Repr

/-- One normalized tool-call dict. -/
structure ToolCallN where
  message_sequence : Int
  tool_name : Json
  tool_input : String
  tool_output : Json
  success : Json
deriving DecidableEq, Repr

/-- One normalized token-usage dict (JSONL normalizer only). -/
structure TokenUsageN where
  message_sequence : Int
  timestamp : Json
  model : Json
  input_tokens : Json
  output_tokens : Json
  cache_read_tokens : Json
  cache_creation_tokens : Json
deriving DecidableEq, Repr

/-- The canonical parsed-session structure all three normalizers
return. -/
structure ParsedSession where
  session_id : Json
  project_path : Json
  started_at : Json
  ended_at : Json
  messages : List NormMessage
  tool_calls : List ToolCallN
  token_usage : List TokenUsageN
  tokens_in : Json
  tokens_out : Json
  metadata : Json
deriving DecidableEq, Repr

/-- A candidate log file as the scan loop sees it.  `content` is the
file's text (standing for its bytes), `stem` and `parent_name` the
filename pieces `filepath.stem` / `filepath.parent.name`, `mtime_iso`
the already-formatted `datetime.fromtimestamp(st_mtime).isoformat()`,
and `read_fails` models a file whose bytes cannot be decoded as UTF-8,
so that opening it inside `_parse_claude_code_log` raises. -/
structure FileInfo where
  stem : String
  parent_name : String
  mtime_iso : String
  content : String
  read_fails : Bool
deriving DecidableEq, Repr

/-- Model of `filepath.stat().st_size`: the byte size of the content. -/
def FileInfo.size (f : FileInfo) : Nat :=
  f.content.utf8ByteSize

/-- Model of `hashlib.md5(filepath.read_bytes()).hexdigest()`
(`LogProcessor._file_hash`).  MD5 is modelled as the identity on
contents: it preserves the only property the processor relies on,
namely that equal bytes give equal digests (collision-freedom of the
real digest is assumed by the design, per spec section 4.6). -/
def file_hash (f : FileInfo) : String :=
  f.content

/-! `LogProcessor._extract_content` (source lines 486-519). -/

/-- Rendering of one content block inside `_extract_content`'s loop:
the list of `parts` the block contributes.  Errors model the Python
exceptions the loop body (or the final `'\n'.join`) can raise on
non-string payloads. -/
def extractBlock (block : Json) : Except String (List String) :=
  match block with
  | Json.str s => Except.ok [s]
  | Json.obj _ =>
    let bt := block.getD "type" Json.null
    if bt == Json.str "text" then
      match block.getD "text" (Json.str "") with
      | Json.str s => Except.ok [s]
      | _ => Except.error "TypeError: join on non-str part"
    else if bt == Json.str "tool_use" then
      Except.ok ["[Tool: " ++ pyStr (block.getD "name" Json.null) ++ "]"]
    else if bt == Json.str "tool_result" then
      match block.getD "content" (Json.str "") with
      | Json.str rc =>
        let rc := if rc.length > 500 then pyTake rc 500 ++ "..." else rc
        Except.ok ["[Tool Result: " ++ rc ++ "]"]
      | Json.arr items =>
        items.foldlM (fun acc item =>
          if item.isObj && (item.getD "type" Json.null == Json.str "text") then
            match item.getD "text" (Json.str "") with
            | Json.str t => Except.ok (acc ++ ["[Tool Result: " ++ pyTake t 500 ++ "]"])
            | Json.arr xs =>
              Except.ok (acc ++ ["[Tool Result: " ++ pyRepr (Json.arr (xs.take 500)) ++ "]"])
            | _ => Except.error "TypeError: unsliceable"
          else Except.ok acc) []
      | _ => Except.ok []
    else Except.ok []
  | _ => Except.ok []

/-- `LogProcessor._extract_content`: message payload to flattened
text. -/
def extract_content (msg : Json) : Except String String := do
  unless msg.isObj do throw "AttributeError: get"
  let content := msg.getD "content" (Json.str "")
  match content with
  | Json.str s => return s
  | Json.arr blocks => do
    let parts ← blocks.foldlM (fun acc b => do pure (acc ++ (← extractBlock b))) []
    return "\n".intercalate parts
  | other => return pyStr other

/-! `LogProcessor._normalize_json_log` (source lines 269-310). -/

/-- Model of Python iteration over a value expected to hold message (or
tool-call) dicts.  A list yields its elements; iterating an empty
string or empty dict yields nothing; a non-empty string or dict yields
strings, on which the first attribute access in the loop body raises;
other values are not iterable. -/
def pyIterElems : Json → Except String (List Json)
  | Json.arr xs => Except.ok xs
  | Json.str s => if s = "" then Except.ok [] else Except.error "AttributeError: get on str"
  | Json.obj kvs => if kvs.isEmpty then Except.ok [] else Except.error "AttributeError: get on str"
  | _ => Except.error "TypeError: not iterable"

/-- Tool calls pulled from one JSON-format message
(`_normalize_json_log`, lines 290-298). -/
def jsonToolCallsOf (idx : Int) (msg : Json) : Except String (List ToolCallN) := do
  if msg.getD "role" Json.null == Json.str "assistant" then
    let tcs ← pyIterElems (msg.getD "tool_calls" (msg.getD "toolCalls" (Json.arr [])))
    tcs.foldlM (fun acc tc => do
      unless tc.isObj do throw "AttributeError: get"
      let fv := tc.getD "function" (Json.obj [])
      unless fv.isObj do throw "AttributeError: get"
      let fdefault := fv.getD "name" Json.null
      let tname := (tc.getKey? "name").getD fdefault
      let tinput := match tc.getKey? "input" with
        | some v => v
        | none => tc.getD "arguments" (Json.obj [])
      pure (acc ++ [{ message_sequence := idx, tool_name := tname,
                      tool_input := Json.dumps tinput,
                      tool_output := pyGet2 tc "output" "result",
                      success := tc.getD "success" (Json.bool true) : ToolCallN }])) []
  else
    pure []

/-- The `enumerate(raw_messages)` loop of `_normalize_json_log`. -/
def jsonMsgsLoop : List Json → Int → Except String (List NormMessage × List ToolCallN)
  | [], _ => Except.ok ([], [])
  | msg :: rest, idx => do
    unless msg.isObj do throw "AttributeError: get"
    let content ← extract_content msg
    let m : NormMessage :=
      { sequence := idx, timestamp := pyGet2 msg "timestamp" "ts",
        role := msg.getD "role" (Json.str "unknown"), content := content,
        content_type := "text" }
    let tcs ← jsonToolCallsOf idx msg
    let (ms, ts) ← jsonMsgsLoop rest (idx + 1)
    Except.ok (m :: ms, tcs ++ ts)

/-- `LogProcessor._normalize_json_log`. -/
def normalize_json_log (data : Json) (fi : FileInfo) : Except String ParsedSession := do
  unless data.isObj do throw "AttributeError: get"
  let sid0 := data.getD "sessionId" Json.null
  let sid1 := data.getD "id" Json.null
  let session_id := if sid0.truthy then sid0 else if sid1.truthy then sid1 else Json.str fi.stem
  let raw_messages := data.getD "messages" (data.getD "conversation" (Json.arr []))
  let items ← pyIterElems raw_messages
  let (messages, tool_calls) ← jsonMsgsLoop items 0
  let u := data.getD "usage" (Json.obj [])
  unless u.isObj do throw "AttributeError: get"
  let tin := match data.getKey? "tokensIn" with
    | some v => v
    | none => u.getD "input_tokens" (Json.num 0)
  let tout := match data.getKey? "tokensOut" with
    | some v => v
    | none => u.getD "output_tokens" (Json.num 0)
  return { session_id := session_id,
           project_path := pyGet2 data "cwd" "projectPath",
           started_at := pyGet2 data "startedAt" "timestamp",
           ended_at := data.getD "endedAt" Json.null,
           messages := messages, tool_calls := tool_calls, token_usage := [],
           tokens_in := tin, tokens_out := tout, metadata := data }

/-! `LogProcessor._normalize_jsonl_log` (source lines 312-424). -/

/-- Accumulators of the JSONL normalizer loop: messages, tool calls,
token-usage entries and running token totals.  The first/last
timestamp trackers live alongside in `JState`; the loop body below
only ever writes the accumulators, the timestamp trackers are written
only by `tsUpdate`. -/
structure JAcc where
  messages : List NormMessage
  tool_calls : List ToolCallN
  token_usage : List TokenUsageN
  tin : Int
  tout : Int
deriving DecidableEq, Repr

/-- Loop state of the JSONL normalizer. -/
structure JState where
  acc : JAcc
  first_ts : Json
  last_ts : Json
deriving DecidableEq, Repr

/-- Lines 334-338: record a truthy timestamp. -/
def tsUpdate (ts : Json) (st : JState) : JState :=
  if ts.truthy then
    { st with first_ts := if st.first_ts.truthy then st.first_ts else ts,
              last_ts := ts }
  else st

/-- Lines 340-405: dispatch on the entry's `type` discriminator and
accumulate messages / token usage / tool calls.  Only the accumulators
are written here; the source's loop body never touches the first/last
timestamp trackers (those are written at lines 334-338, `tsUpdate`). -/
def jsonlBody (entry ts : Json) (st : JAcc) : Except String JAcc := do
  let entry_type := entry.getD "type" Json.null
  if entry_type == Json.str "user" || entry_type == Json.str "assistant" then
    let msg_data := (entry.getKey? "message").getD entry
    let msg_sequence : Int := st.messages.length
    let content ← extract_content msg_data
    let st := { st with messages := st.messages ++
      [{ sequence := msg_sequence, timestamp := ts, role := entry_type,
         content := content, content_type := "text" }] }
    if entry_type == Json.str "assistant" then
      let usage := msg_data.getD "usage" (Json.obj [])
      let st ← (if usage.truthy then do
          unless usage.isObj do throw "AttributeError: get"
          let input_tokens := usage.getD "input_tokens" (Json.num 0)
          let output_tokens := usage.getD "output_tokens" (Json.num 0)
          let cache_read := usage.getD "cache_read_input_tokens" (Json.num 0)
          let cache_creation := usage.getD "cache_creation_input_tokens" (Json.num 0)
          let tin ← pyAddInt st.tin input_tokens
          let tout ← pyAddInt st.tout output_tokens
          pure { st with
                   tin := tin
                   tout := tout
                   token_usage := st.token_usage ++
                     [{ message_sequence := msg_sequence, timestamp := ts,
                        model := msg_data.getD "model" (Json.str "unknown"),
                        input_tokens := input_tokens, output_tokens := output_tokens,
                        cache_read_tokens := cache_read,
                        cache_creation_tokens := cache_creation }] }
        else pure st)
      match msg_data.getD "content" (Json.arr []) with
      | Json.arr blocks =>
        let tcs := blocks.filterMap (fun block =>
          if block.isObj && (block.getD "type" Json.null == Json.str "tool_use") then
            some { message_sequence := msg_sequence,
                   tool_name := block.getD "name" Json.null,
                   tool_input := Json.dumps (block.getD "input" (Json.obj [])),
                   tool_output := Json.null, success := Json.bool true : ToolCallN }
          else none)
        return { st with tool_calls := st.tool_calls ++ tcs }
      | _ => return st
    else
      return st
  else if entry_type == Json.str "message" || entry.hasKey "role" then
    let content ← extract_content entry
    return { st with messages := st.messages ++
      [{ sequence := (st.messages.length : Int), timestamp := ts,
         role := entry.getD "role" (Json.str "unknown"),
         content := content, content_type := "text" }] }
  else if entry_type == Json.str "tool_call" then
    return { st with tool_calls := st.tool_calls ++
      [{ message_sequence := (st.messages.length : Int) - 1,
         tool_name := entry.getD "name" Json.null,
         tool_input := Json.dumps (entry.getD "input" (Json.obj [])),
         tool_output := entry.getD "output" Json.null,
         success := entry.getD "success" (Json.bool true) : ToolCallN }] }
  else
    return st

/-- One iteration of the `for idx, line in enumerate(lines)` loop. -/
def jsonlStep (line : String) (st : JState) : Except String JState :=
  if pyStrip line = "" then Except.ok st
  else
    match json_loads line with
    | none => Except.error "json.JSONDecodeError"
    | some entry =>
      if entry.isObj then
        let ts := pyGet2 entry "timestamp" "ts"
        let st1 := tsUpdate ts st
        (jsonlBody entry ts st1.acc).map (fun a => { st1 with acc := a })
      else Except.error "AttributeError: get"

def jsonlLoop : List String → JState → Except String JState
  | [], st => Except.ok st
  | line :: rest, st => do jsonlLoop rest (← jsonlStep line st)

def JState.init : JState :=
  { acc := { messages := [], tool_calls := [], token_usage := [], tin := 0, tout := 0 },
    first_ts := Json.null, last_ts := Json.null }

/-- `LogProcessor._normalize_jsonl_log`. -/
def normalize_jsonl_log (lines : List String) (fi : FileInfo) : Except String ParsedSession := do
  let st ← jsonlLoop lines JState.init
  let (first_ts, last_ts) :=
    if st.first_ts.truthy then (st.first_ts, st.last_ts)
    else (Json.str fi.mtime_iso, Json.str fi.mtime_iso)
  return { session_id := Json.str fi.stem,
           project_path :=
             if pyStartsWith fi.parent_name "-" then Json.str (replaceChar fi.parent_name '-' '/')
             else Json.null,
           started_at := first_ts, ended_at := last_ts,
           messages := st.acc.messages, tool_calls := st.acc.tool_calls,
           token_usage := st.acc.token_usage,
           tokens_in := Json.num st.acc.tin, tokens_out := Json.num st.acc.tout,
           metadata := Json.obj [("source", Json.str "jsonl"),
                                 ("line_count", Json.num lines.length)] }

/-! `LogProcessor._normalize_text_log` (source lines 426-484). -/

/-- Model of `line.split(':', 1)[1]`: everything after the first
colon. -/
def splitColonTail (line : String) : String :=
  String.mk (afterCharL ':' line.toList)

/-- Flush the pending buffer as a message when both a current role and
a non-empty buffer exist (`if current_role and current_content`). -/
def flushText (messages : List NormMessage) (current_role : Option String)
    (current_content : List String) : List NormMessage :=
  match current_role with
  | some r =>
    if current_content.isEmpty then messages
    else messages ++
      [{ sequence := (messages.length : Int), timestamp := Json.null,
         role := Json.str r, content := pyStrip ("\n".intercalate current_content),
         content_type := "text" }]
  | none => messages

/-- The line scanner of `_normalize_text_log`. -/
def textLoop : List String → Option String → List String → List NormMessage → List NormMessage
  | [], role, cc, messages => flushText messages role cc
  | line :: rest, role, cc, messages =>
    let line_lower := pyStrip (pyLower line)
    if pyStartsWith line_lower "human:" || pyStartsWith line_lower "user:" then
      textLoop rest (some "user")
        [if line.toList.contains ':' then splitColonTail line else ""]
        (flushText messages role cc)
    else if pyStartsWith line_lower "assistant:" || pyStartsWith line_lower "claude:" then
      textLoop rest (some "assistant")
        [if line.toList.contains ':' then splitColonTail line else ""]
        (flushText messages role cc)
    else
      textLoop rest role (cc ++ [line]) messages

/-- `LogProcessor._normalize_text_log`. -/
def normalize_text_log (content : String) (fi : FileInfo) : ParsedSession :=
  { session_id := Json.str fi.stem, project_path := Json.null,
    started_at := Json.null, ended_at := Json.null,
    messages := textLoop (splitOnChar '\n' content) none [] [],
    tool_calls := [], token_usage := [],
    tokens_in := Json.num 0, tokens_out := Json.num 0,
    metadata := Json.obj [("source", Json.str "text")] }

/-! `LogProcessor._parse_claude_code_log` and `_is_json_line`
(source lines 231-267). -/

/-- `LogProcessor._is_json_line`. -/
def is_json_line (line : String) : Bool :=
  (json_loads line).isSome

/-- `LogProcessor._parse_claude_code_log`: read the file, try whole-file
JSON, then JSONL, then the text transcript heuristic; any exception is
caught and turned into `None`. -/
def parse_claude_code_log (f : FileInfo) : Option ParsedSession :=
  if f.read_fails then none
  else
    match json_loads f.content with
    | some data => (normalize_json_log data f).toOption
    | none =>
      let lines := splitOnChar '\n' (pyStrip f.content)
      if lines.all (fun line => pyStrip line = "" || is_json_line line) then
        (normalize_jsonl_log lines f).toOption
      else
        some (normalize_text_log f.content f)

/-! `LogProcessor._generate_tags` (source lines 612-644). -/

/-- Set-as-list insertion (Python `set.add`): membership facts about
the result are order-independent, matching the unordered Python set. -/
def insertIfAbsent {α : Type} [DecidableEq α] (l : List α) (x : α) : List α :=
  if x ∈ l then l else l ++ [x]

/-- Distinct elements in first-seen order (Python set construction
from a comprehension). -/
def distinctNames (l : List Json) : List Json :=
  l.foldl (fun acc n => insertIfAbsent acc n) []

/-- The fixed keyword groups of `_generate_tags`. -/
def tagPatterns : List (String × List String) :=
  [("debugging", ["error", "bug", "fix", "debug", "issue"]),
   ("refactoring", ["refactor", "cleanup", "restructure"]),
   ("feature", ["implement", "add feature", "new feature"]),
   ("testing", ["test", "spec", "coverage"]),
   ("documentation", ["document", "readme", "comment"])]

/-- Line 623-625: `' '.join(msg.get('content','') ...).lower()` —
the space-separated, case-folded join of all message contents. -/
def allContent (ps : ParsedSession) : String :=
  pyLower (" ".intercalate (ps.messages.map (fun m => m.content)))

/-- `LogProcessor._generate_tags`: the set of tags generated for a
parsed session, as a duplicate-free list.  (Python iterates a set, so
only membership in the result is meaningful.) -/
def generate_tags (ps : ParsedSession) : List String :=
  let tool_names := distinctNames (ps.tool_calls.map (fun tc => tc.tool_name))
  let tags := tool_names.foldl
    (fun acc tool => if tool.truthy then insertIfAbsent acc ("tool:" ++ pyStr tool) else acc) []
  tagPatterns.foldl
    (fun acc p =>
      if p.2.any (fun kw => strContains (allContent ps) kw) then insertIfAbsent acc p.1
      else acc) tags

/-! The store (SQLite database): the tables the importer writes.
Auto-increment row ids for `messages` are modelled as `length + 1` at
insert time (fresh increasing ids; the processor never deletes rows). -/

structure SessionRow where
  id : Json
  project_path : Json
  started_at : Json
  ended_at : Json
  total_messages : Int
  total_tokens_in : Json
  total_tokens_out : Json
  file_hash : String
  imported_at : String
  raw_metadata : String
deriving DecidableEq, Repr

structure MessageRow where
  id : Nat
  session_id : Json
  sequence : Int
  timestamp : Json
  role : Json
  content : String
  content_type : String
deriving DecidableEq, Repr

structure ToolCallRow where
  session_id : Json
  message_id : Nat
  sequence : Int
  tool_name : Json
  tool_input : String
  tool_output : Json
  success : Json
deriving DecidableEq, Repr

structure TokenUsageRow where
  session_id : Json
  message_sequence : Int
  timestamp : Json
  model : Json
  input_tokens : Json
  output_tokens : Json
  cache_read_tokens : Json
  cache_creation_tokens : Json
deriving DecidableEq, Repr

structure TagRow where
  session_id : Json
  tag : String
  auto_generated : Bool
deriving DecidableEq, Repr

structure Store where
  sessions : List SessionRow
  messages : List MessageRow
  tool_calls : List ToolCallRow
  token_usage : List TokenUsageRow
  session_tags : List TagRow
deriving DecidableEq, Repr

def Store.empty : Store :=
  { sessions := [], messages := [], tool_calls := [], token_usage := [], session_tags := [] }

/-- `LogProcessor._is_processed`: does any session row carry this
file's content hash? -/
def is_processed (s : Store) (f : FileInfo) : Bool :=
  s.sessions.any (fun r => r.file_hash == file_hash f)

/-! `LogProcessor._import_session` (source lines 521-610): one
transaction that upserts the session row, inserts messages with their
linked tool calls, inserts token usage, and inserts generated tags. -/

/-- `INSERT OR IGNORE INTO session_tags ... VALUES (?, ?, 1)`:
no-op when the (session_id, tag) primary key already exists. -/
def insertTag (s : Store) (sid : Json) (tag : String) : Store :=
  if s.session_tags.any (fun r => r.session_id == sid && r.tag == tag) then s
  else { s with session_tags := s.session_tags ++ [{ session_id := sid, tag := tag, auto_generated := true }] }

/-- `INSERT OR REPLACE INTO sessions`: replace any row with the same
primary key `id`. -/
def upsertSession (s : Store) (row : SessionRow) : Store :=
  { s with sessions := s.sessions.filter (fun r => r.id != row.id) ++ [row] }

/-- Insert one message row and the tool-call rows linked to it
(`message_sequence == msg['sequence']`), using the fresh message row id
(`cursor.lastrowid`). -/
def insertMessageWithTools (ps : ParsedSession) (s : Store) (m : NormMessage) : Store :=
  let mid := s.messages.length + 1
  let s := { s with messages := s.messages ++
    [{ id := mid, session_id := ps.session_id, sequence := m.sequence,
       timestamp := m.timestamp, role := m.role, content := m.content,
       content_type := m.content_type }] }
  ps.tool_calls.foldl (fun acc tc =>
    if tc.message_sequence == m.sequence then
      { acc with tool_calls := acc.tool_calls ++
        [{ session_id := ps.session_id, message_id := mid,
           sequence := tc.message_sequence, tool_name := tc.tool_name,
           tool_input := tc.tool_input, tool_output := tc.tool_output,
           success := tc.success }] }
    else acc) s

/-- Insert one token-usage row. -/
def insertTokenUsage (ps : ParsedSession) (s : Store) (tu : TokenUsageN) : Store :=
  { s with token_usage := s.token_usage ++
    [{ session_id := ps.session_id, message_sequence := tu.message_sequence,
       timestamp := tu.timestamp, model := tu.model,
       input_tokens := tu.input_tokens, output_tokens := tu.output_tokens,
       cache_read_tokens := tu.cache_read_tokens,
       cache_creation_tokens := tu.cache_creation_tokens }] }

/-- The session row the importer writes for a parsed session. -/
def sessionRowOf (ps : ParsedSession) (fileHash now : String) : SessionRow :=
  { id := ps.session_id, project_path := ps.project_path,
    started_at := ps.started_at, ended_at := ps.ended_at,
    total_messages := (ps.messages.length : Int),
    total_tokens_in := ps.tokens_in, total_tokens_out := ps.tokens_out,
    file_hash := fileHash, imported_at := now,
    raw_metadata := Json.dumps ps.metadata }

/-- The successful write sequence of `_import_session` applied to the
store (the committed transaction). -/
def applyImport (ps : ParsedSession) (fileHash now : String) (s : Store) : Store :=
  let s1 := upsertSession s (sessionRowOf ps fileHash now)
  let s2 := ps.messages.foldl (insertMessageWithTools ps) s1
  let s3 := ps.token_usage.foldl (insertTokenUsage ps) s2
  (generate_tags ps).foldl (fun acc t => insertTag acc ps.session_id t) s3

/-- Number of SQL write statements the transaction executes, in order:
the session upsert, one insert per message, one insert per linked tool
call, one insert per token-usage record, one (possibly ignored) insert
per generated tag.  A fault injected at any index below this count
models an exception raised mid-transaction. -/
def importWriteCount (ps : ParsedSession) : Nat :=
  1 + ps.messages.length +
  ps.messages.foldl (fun n m => n + (ps.tool_calls.filter (fun tc => tc.message_sequence == m.sequence)).length) 0 +
  ps.token_usage.length + (generate_tags ps).length

/-- `LogProcessor._import_session`: all writes happen inside one
transaction on the connection; on an exception at any write the
transaction is rolled back (the uncommitted writes are discarded, the
store is left as it was) and the exception is re-raised; otherwise the
transaction commits.  `failAt` injects an exception before the k-th
write statement. -/
def import_session (failAt : Option Nat) (ps : ParsedSession) (fileHash now : String)
    (s : Store) : Except String Store :=
  match failAt with
  | some k =>
    if k < importWriteCount ps then Except.error "import error: rolled back"
    else Except.ok (applyImport ps fileHash now s)
  | none => Except.ok (applyImport ps fileHash now s)

/-! `LogProcessor.process_all` (source lines 816-859): the per-file
scan loop over the session log files.  The four auxiliary importers
(lines 823-826) write disjoint tables and are outside this model. -/

/-- Counters and store carried across the scan. -/
structure ScanState where
  store : Store
  processed : Nat
  skipped : Nat
  errors : Nat
deriving DecidableEq, Repr

/-- The body of the `for filepath in log_files` loop: skip files under
50 bytes; skip (and count) files whose content hash is already in the
store; parse; import when the parse produced messages, counting an
exception during import as an error; otherwise skip silently. -/
def processFile (failAt : FileInfo → Option Nat) (now : String)
    (st : ScanState) (f : FileInfo) : ScanState :=
  if f.size < 50 then st
  else if is_processed st.store f then { st with skipped := st.skipped + 1 }
  else
    match parse_claude_code_log f with
    | none => st
    | some parsed =>
      if parsed.messages.isEmpty then st
      else
        match import_session (failAt f) parsed (file_hash f) now st.store with
        | Except.ok s2 => { st with store := s2, processed := st.processed + 1 }
        | Except.error _ => { st with errors := st.errors + 1 }

/-- The scan over a list of candidate files, with fresh counters. -/
def process_all (failAt : FileInfo → Option Nat) (now : String)
    (files : List FileInfo) (s : Store) : ScanState :=
  files.foldl (processFile failAt now) { store := s, processed := 0, skipped := 0, errors := 0 }

/-- No injected faults: every import transaction commits. -/
def noFail : FileInfo → Option Nat := fun _ => none

/-- The session id a file would be normalized under, when it parses. -/
def parsedSid (f : FileInfo) : Option Json :=
  (parse_claude_code_log f).map (fun ps => ps.session_id)

/-! General-purpose helpers for the claim proofs. -/

instance {ε α : Type} [DecidableEq ε] [DecidableEq α] : DecidableEq (Except ε α) := fun a b =>
  match a, b with
  | Except.ok x, Except.ok y =>
    match decEq x y with
    | isTrue h => isTrue (by rw [h])
    | isFalse h => isFalse (by intro he; cases he; exact h rfl)
  | Except.error x, Except.error y =>
    match decEq x y with
    | isTrue h => isTrue (by rw [h])
    | isFalse h => isFalse (by intro he; cases he; exact h rfl)
  | Except.ok _, Except.error _ => isFalse (fun h => nomatch h)
  | Except.error _, Except.ok _ => isFalse (fun h => nomatch h)

theorem intercalate_single (sep a : String) : sep.intercalate [a] = a := by
  simp [String.intercalate, String.intercalate.go]

/-! Claim C5 — truncation law in `_extract_content`. -/

/-- A 501-character tool-result text payload. -/
def longA : String := String.mk (List.replicate 501 'a')

/-- A message whose content carries one `tool_result` block with
list-shaped content holding one 501-character `text` sub-block. -/
def c5SubBlockMsg : Json :=
  Json.obj [("content", Json.arr [Json.obj [("type", Json.str "tool_result"),
    ("content", Json.arr [Json.obj [("type", Json.str "text"),
      ("text", Json.str longA)]])]])]

theorem string_mk_length (l : List Char) : (String.mk l).length = l.length := rfl

/-- Generic evaluation of `_extract_content` on a message holding one
tool-result block with one text sub-block. -/
theorem extract_content_sub_block (s : String) :
    extract_content (Json.obj [("content", Json.arr [Json.obj [("type", Json.str "tool_result"),
        ("content", Json.arr [Json.obj [("type", Json.str "text"), ("text", Json.str s)]])]])]) =
      Except.ok ("[Tool Result: " ++ pyTake s 500 ++ "]") := rfl

/-- C5 counterexample: the claim says every over-500-character
tool-result payload — including each `text`-typed sub-block of
list-valued tool-result content — appears truncated to its first 500
characters followed by an ellipsis marker.  On a 501-character text
sub-block the code truncates to 500 characters but appends no
ellipsis marker. -/
theorem c5_truncation_counterexample :
    500 < longA.length ∧
    extract_content c5SubBlockMsg = Except.ok ("[Tool Result: " ++ pyTake longA 500 ++ "]") ∧
    extract_content c5SubBlockMsg ≠
      Except.ok ("[Tool Result: " ++ pyTake longA 500 ++ "..." ++ "]") := by
  have he : extract_content c5SubBlockMsg =
      Except.ok ("[Tool Result: " ++ pyTake longA 500 ++ "]") :=
    extract_content_sub_block longA
  refine ⟨?_, he, ?_⟩
  · show 500 < (String.mk (List.replicate 501 'a')).length
    rw [string_mk_length, List.length_replicate]
    omega
  · intro h
    rw [he] at h
    have h2 := congrArg String.length (Except.ok.inj h)
    have e1 : ("]" : String).length = 1 := rfl
    have e2 : ("..." : String).length = 3 := rfl
    simp only [String.length_append, e1, e2] at h2
    omega

/-- C5 (amended): string-valued tool-result content longer than 500
characters is replaced by its first 500 characters plus the ellipsis
marker, and left unchanged at 500 characters or fewer; a `text`-typed
sub-block of list-valued tool-result content is truncated to its first
500 characters without an ellipsis marker; a plain `text` block is
passed through unchanged. -/
theorem c5_truncation_amended (s : String) :
    extractBlock (Json.obj [("type", Json.str "tool_result"), ("content", Json.str s)]) =
      Except.ok ["[Tool Result: " ++ (if s.length > 500 then pyTake s 500 ++ "..." else s) ++ "]"] ∧
    extractBlock (Json.obj [("type", Json.str "tool_result"),
        ("content", Json.arr [Json.obj [("type", Json.str "text"), ("text", Json.str s)]])]) =
      Except.ok ["[Tool Result: " ++ pyTake s 500 ++ "]"] ∧
    extractBlock (Json.obj [("type", Json.str "text"), ("text", Json.str s)]) = Except.ok [s] ∧
    extract_content (Json.obj [("content",
        Json.arr [Json.obj [("type", Json.str "tool_result"), ("content", Json.str s)]])]) =
      Except.ok ("[Tool Result: " ++ (if s.length > 500 then pyTake s 500 ++ "..." else s) ++ "]") := by
  exact ⟨rfl, rfl, rfl, rfl⟩

/-! Claim C3 — format detection order in `_parse_claude_code_log`. -/

/-- C3: detection tries the three formats in a fixed order with first
match winning — if the entire content parses as one JSON value the JSON
normalizer is applied; otherwise, if every non-empty line parses as
independent JSON, the JSONL normalizer is applied; otherwise the TEXT
normalizer is applied. -/
theorem c3_format_detection_order (f : FileInfo) (h : f.read_fails = false) :
    (∀ d, json_loads f.content = some d →
        parse_claude_code_log f = (normalize_json_log d f).toOption) ∧
    (json_loads f.content = none →
      ((∀ l ∈ splitOnChar '\n' (pyStrip f.content), pyStrip l ≠ "" → is_json_line l = true) →
          parse_claude_code_log f =
            (normalize_jsonl_log (splitOnChar '\n' (pyStrip f.content)) f).toOption) ∧
      ((∃ l ∈ splitOnChar '\n' (pyStrip f.content), pyStrip l ≠ "" ∧ is_json_line l = false) →
          parse_claude_code_log f = some (normalize_text_log f.content f))) := by
  refine ⟨fun d hd => by simp [parse_claude_code_log, h, hd], fun hn => ⟨fun hall => ?_, ?_⟩⟩
  · have hc : (splitOnChar '\n' (pyStrip f.content)).all (fun line => pyStrip line = "" || is_json_line line) = true := by
      rw [List.all_eq_true]
      intro l hl
      by_cases hb : pyStrip l = ""
      · simp [hb]
      · simp [hb, hall l hl hb]
    simp [parse_claude_code_log, h, hn, hc]
  · rintro ⟨l, hl, hne, hnj⟩
    have hc : (splitOnChar '\n' (pyStrip f.content)).all (fun line => pyStrip line = "" || is_json_line line) = false := by
      rw [List.all_eq_false]
      exact ⟨l, hl, by simp [hne, hnj]⟩
    simp [parse_claude_code_log, h, hn, hc]

/-- A minimal whole-file JSON log. -/
def c3File : FileInfo :=
  { stem := "c3", parent_name := "p", mtime_iso := "2024-01-01T00:00:00",
    content := "\x7b\"messages\": []\x7d", read_fails := false }

def c3Data : Json := Json.obj [("messages", Json.arr [])]

theorem c3_format_detection_order_witness :
    parse_claude_code_log c3File = (normalize_json_log c3Data c3File).toOption :=
  (c3_format_detection_order c3File rfl).1 c3Data (by decide)

/-! Claim C9 — the 50-byte minimum-size filter in `process_all`. -/

/-- C9: a file under 50 bytes is dropped before any other step — the
loop body leaves the scan state (store and all three counters)
untouched, so the file is never hashed, parsed, or counted, regardless
of its content. -/
theorem c9_minimum_size_filter (F : FileInfo → Option Nat) (now : String)
    (f : FileInfo) (rest : List FileInfo) (st : ScanState) (h : f.size < 50) :
    processFile F now st f = st ∧
    List.foldl (processFile F now) st (f :: rest) = List.foldl (processFile F now) st rest := by
  have h1 : processFile F now st f = st := by simp [processFile, h]
  exact ⟨h1, by simp [List.foldl_cons, h1]⟩

/-- A 30-byte file whose content is even valid JSON. -/
def smallFile : FileInfo :=
  { stem := "tiny", parent_name := "p", mtime_iso := "2024-01-01T00:00:00",
    content := "\x7b\"messages\": [1, 2, 3, 4]\x7d", read_fails := false }

theorem c9_minimum_size_filter_witness :
    processFile noFail "t" { store := Store.empty, processed := 0, skipped := 0, errors := 0 }
        smallFile =
      { store := Store.empty, processed := 0, skipped := 0, errors := 0 } :=
  (c9_minimum_size_filter noFail "t" smallFile []
    { store := Store.empty, processed := 0, skipped := 0, errors := 0 } (by decide)).1

/-! Claim C4 — accounting of detection/parse failures. -/

/-- A 56-byte file whose bytes cannot be decoded, so reading it inside
`_parse_claude_code_log` raises. -/
def fBad : FileInfo :=
  { stem := "bad", parent_name := "p", mtime_iso := "2024-01-01T00:00:00",
    content := "this file is big enough to pass the fifty byte filter.",
    read_fails := true }

/-- C4 counterexample: the claim says a file that throws during
detection/parsing is counted in the scan's error counter.  Scanning
one such file leaves every counter — including `errors` — at zero: the
`errors` counter is only incremented around `_import_session`, never
for parse failures. -/
theorem c4_parse_failure_counterexample :
    fBad.read_fails = true ∧ ¬ fBad.size < 50 ∧
    process_all noFail "t" [fBad] Store.empty =
      { store := Store.empty, processed := 0, skipped := 0, errors := 0 } := by
  refine ⟨rfl, by decide, by decide⟩

/-- C4 (amended): a file that throws during detection/parsing is
logged and skipped wholesale — the store and all counters are left
unchanged and the scan continues with the remaining files; it is NOT
counted in the error counter (which only counts import-transaction
failures). -/
theorem c4_parse_failure_amended (F : FileInfo → Option Nat) (now : String)
    (f : FileInfo) (rest : List FileInfo) (st : ScanState)
    (hf : f.read_fails = true) (hs : ¬ f.size < 50)
    (hd : is_processed st.store f = false) :
    parse_claude_code_log f = none ∧
    processFile F now st f = st ∧
    List.foldl (processFile F now) st (f :: rest) = List.foldl (processFile F now) st rest := by
  have hp : parse_claude_code_log f = none := by simp [parse_claude_code_log, hf]
  have h1 : processFile F now st f = st := by simp [processFile, hs, hd, hp]
  exact ⟨hp, h1, by simp [List.foldl_cons, h1]⟩

theorem c4_parse_failure_amended_witness :
    parse_claude_code_log fBad = none ∧
    processFile noFail "t" { store := Store.empty, processed := 0, skipped := 0, errors := 0 }
        fBad =
      { store := Store.empty, processed := 0, skipped := 0, errors := 0 } :=
  have h := c4_parse_failure_amended noFail "t" fBad [] ⟨Store.empty, 0, 0, 0⟩ rfl (by decide) (by decide)
  ⟨h.1, h.2.1⟩

/-! Scan-loop branch lemmas shared by the remaining claims. -/

/-- The session row the importer upserts. -/
theorem upsertSession_sessions (s : Store) (row : SessionRow) :
    (upsertSession s row).sessions = s.sessions.filter (fun r => r.id != row.id) ++ [row] := rfl

theorem foldl_sessions_eq {α : Type} (g : Store → α → Store)
    (hg : ∀ s a, (g s a).sessions = s.sessions) :
    ∀ (l : List α) (s : Store), (l.foldl g s).sessions = s.sessions := by
  intro l
  induction l with
  | nil => intro s; rfl
  | cons a l ih => intro s; rw [List.foldl_cons, ih, hg]

theorem insertTag_sessions (s : Store) (sid : Json) (t : String) :
    (insertTag s sid t).sessions = s.sessions := by
  unfold insertTag; split <;> rfl

theorem insertMessageWithTools_sessions (ps : ParsedSession) (s : Store) (m : NormMessage) :
    (insertMessageWithTools ps s m).sessions = s.sessions := by
  unfold insertMessageWithTools
  rw [foldl_sessions_eq]
  intro s a; split <;> rfl

theorem insertTokenUsage_sessions (ps : ParsedSession) (s : Store) (tu : TokenUsageN) :
    (insertTokenUsage ps s tu).sessions = s.sessions := rfl

theorem applyImport_sessions (ps : ParsedSession) (fh now : String) (s : Store) :
    (applyImport ps fh now s).sessions =
      s.sessions.filter (fun r => r.id != ps.session_id) ++ [sessionRowOf ps fh now] := by
  unfold applyImport
  rw [foldl_sessions_eq (fun acc t => insertTag acc ps.session_id t)
        (fun s t => insertTag_sessions s ps.session_id t),
      foldl_sessions_eq (insertTokenUsage ps) (insertTokenUsage_sessions ps),
      foldl_sessions_eq (insertMessageWithTools ps) (insertMessageWithTools_sessions ps)]
  rfl

/-- After a committed import, some session row carries the imported
file's hash under the parsed session id. -/
theorem applyImport_mem_hash (ps : ParsedSession) (fh now : String) (s : Store) :
    ∃ r ∈ (applyImport ps fh now s).sessions, r.id = ps.session_id ∧ r.file_hash = fh := by
  rw [applyImport_sessions]
  exact ⟨sessionRowOf ps fh now, List.mem_append_right _ (List.mem_singleton_self _), rfl, rfl⟩

/-- A session row whose id differs from the imported session's id
survives the import untouched. -/
theorem applyImport_preserve (ps : ParsedSession) (fh now : String) (s : Store)
    (i : Json) (h : String) (hne : i ≠ ps.session_id)
    (hex : ∃ r ∈ s.sessions, r.id = i ∧ r.file_hash = h) :
    ∃ r ∈ (applyImport ps fh now s).sessions, r.id = i ∧ r.file_hash = h := by
  rw [applyImport_sessions]
  obtain ⟨r, hr, hid, hh⟩ := hex
  refine ⟨r, List.mem_append_left _ (List.mem_filter.mpr ⟨hr, ?_⟩), hid, hh⟩
  simp [hid, hne]

theorem import_session_ok (fa : Option Nat) (ps : ParsedSession) (fh now : String)
    (s s2 : Store) (h : import_session fa ps fh now s = Except.ok s2) :
    s2 = applyImport ps fh now s := by
  unfold import_session at h
  cases fa with
  | none => exact (Except.ok.inj h).symm
  | some k =>
    by_cases hk : k < importWriteCount ps
    · simp [hk] at h
    · simp [hk] at h; exact h.symm

/-- The loop body increments `processed` by at most one. -/
theorem processFile_processed_le (F : FileInfo → Option Nat) (now : String)
    (st : ScanState) (f : FileInfo) :
    (processFile F now st f).processed ≤ st.processed + 1 := by
  unfold processFile
  repeat' split
  all_goals simp_arith

/-- Over a file list, `processed` grows by at most the number of
files. -/
theorem foldl_processed_le (F : FileInfo → Option Nat) (now : String) :
    ∀ (files : List FileInfo) (st : ScanState),
      (List.foldl (processFile F now) st files).processed ≤ st.processed + files.length := by
  intro files
  induction files with
  | nil => intro st; simp
  | cons f rest ih =>
    intro st
    rw [List.foldl_cons]
    have h1 := ih (processFile F now st f)
    have h2 := processFile_processed_le F now st f
    simp only [List.length_cons]
    omega

/-- When a fault-free loop body increments `processed`, the file passed
every gate and its import committed. -/
theorem processFile_success_elim (now : String) (st : ScanState) (f : FileInfo)
    (h : (processFile noFail now st f).processed = st.processed + 1) :
    ¬ f.size < 50 ∧ is_processed st.store f = false ∧
    ∃ ps, parse_claude_code_log f = some ps ∧ ps.messages.isEmpty = false ∧
      processFile noFail now st f =
        { st with store := applyImport ps (file_hash f) now st.store,
                  processed := st.processed + 1 } := by
  by_cases h1 : f.size < 50
  · rw [show processFile noFail now st f = st by simp [processFile, h1]] at h; omega
  by_cases h2 : is_processed st.store f
  · rw [show processFile noFail now st f = { st with skipped := st.skipped + 1 } by
      simp [processFile, h1, h2]] at h
    simp at h
  cases hp : parse_claude_code_log f with
  | none =>
    rw [show processFile noFail now st f = st by simp [processFile, h1, h2, hp]] at h; omega
  | some ps =>
    by_cases h3 : ps.messages.isEmpty
    · rw [show processFile noFail now st f = st by simp [processFile, h1, h2, hp, h3]] at h
      omega
    refine ⟨h1, by simpa using h2, ps, rfl, by simpa using h3, ?_⟩
    simp [processFile, h1, h2, hp, h3, import_session, noFail]

/-- The store after one loop-body step is either untouched or the
result of one committed import of that file's parse. -/
theorem processFile_store_cases (F : FileInfo → Option Nat) (now : String)
    (st : ScanState) (f : FileInfo) :
    (processFile F now st f).store = st.store ∨
    ∃ ps, parse_claude_code_log f = some ps ∧
      (processFile F now st f).store = applyImport ps (file_hash f) now st.store := by
  by_cases h1 : f.size < 50
  · left; rw [show processFile F now st f = st by simp [processFile, h1]]
  by_cases h2 : is_processed st.store f
  · left
    rw [show processFile F now st f = { st with skipped := st.skipped + 1 } by
      simp [processFile, h1, h2]]
  cases hp : parse_claude_code_log f with
  | none => left; rw [show processFile F now st f = st by simp [processFile, h1, h2, hp]]
  | some ps =>
    by_cases h3 : ps.messages.isEmpty
    · left; rw [show processFile F now st f = st by simp [processFile, h1, h2, hp, h3]]
    cases hi : import_session (F f) ps (file_hash f) now st.store with
    | ok s2 =>
      right
      refine ⟨ps, rfl, ?_⟩
      rw [show processFile F now st f = { st with store := s2, processed := st.processed + 1 } by
        simp [processFile, h1, h2, hp, h3, hi]]
      exact import_session_ok _ _ _ _ _ _ hi
    | error e =>
      left
      rw [show processFile F now st f = { st with errors := st.errors + 1 } by
        simp [processFile, h1, h2, hp, h3, hi]]

/-! Claim C2 — import atomicity and error accounting. -/

/-- C2: when any exception is raised during the importer's write
sequence (session upsert, message inserts, tool-call inserts,
token-usage inserts, tag inserts), the transaction is rolled back —
the store the scan continues with is exactly the store before that
import: no partial session state persists — the error is propagated,
and the scan loop counts one error for that file and continues with
the remaining files. -/
theorem c2_import_atomicity (F : FileInfo → Option Nat) (now : String)
    (f : FileInfo) (rest : List FileInfo) (st : ScanState) (ps : ParsedSession) (k : Nat)
    (hsize : ¬ f.size < 50) (hdup : is_processed st.store f = false)
    (hparse : parse_claude_code_log f = some ps) (hmsgs : ps.messages.isEmpty = false)
    (hf : F f = some k) (hk : k < importWriteCount ps) :
    import_session (F f) ps (file_hash f) now st.store =
      Except.error "import error: rolled back" ∧
    processFile F now st f = { st with errors := st.errors + 1 } ∧
    List.foldl (processFile F now) st (f :: rest) =
      List.foldl (processFile F now) { st with errors := st.errors + 1 } rest := by
  have hi : import_session (F f) ps (file_hash f) now st.store =
      Except.error "import error: rolled back" := by
    rw [hf]; simp [import_session, hk]
  have h1 : processFile F now st f = { st with errors := st.errors + 1 } := by
    simp [processFile, hsize, hdup, hparse, hmsgs, hi]
  exact ⟨hi, h1, by rw [List.foldl_cons, h1]⟩

/-- A whole-file JSON log with one message, above the size filter. -/
def fB : FileInfo :=
  { stem := "sB", parent_name := "p", mtime_iso := "2024-01-01T00:00:00",
    content := "\x7b\"messages\": [\x7b\"role\": \"user\", \"content\": \"hello there my very good colleague\"\x7d]\x7d",
    read_fails := false }

def psDefault : ParsedSession :=
  { session_id := Json.null, project_path := Json.null, started_at := Json.null,
    ended_at := Json.null, messages := [], tool_calls := [], token_usage := [],
    tokens_in := Json.null, tokens_out := Json.null, metadata := Json.null }

def psB : ParsedSession := (parse_claude_code_log fB).getD psDefault

/-- Fault injection before the very first write statement. -/
def failFirst : FileInfo → Option Nat := fun _ => some 0

theorem c2_import_atomicity_witness :
    import_session (failFirst fB) psB (file_hash fB) "t" Store.empty =
      Except.error "import error: rolled back" ∧
    processFile failFirst "t" { store := Store.empty, processed := 0, skipped := 0, errors := 0 }
        fB =
      { store := Store.empty, processed := 0, skipped := 0, errors := 1 } :=
  have h := c2_import_atomicity failFirst "t" fB []
    { store := Store.empty, processed := 0, skipped := 0, errors := 0 } psB 0
    (by decide) (by decide) (by decide) (by decide) rfl
    (by rw [show importWriteCount psB = 2 from by decide]; omega)
  ⟨h.1, h.2.1⟩

/-! Claim C10 — deduplication is content-global. -/

/-- C10: the already-imported check compares only the content hash
against the `file_hash` column of all session rows; hence once a file
is imported, a second file with byte-identical content (any stem, any
path) is counted as skipped and the scan state is otherwise untouched
— it is never parsed or imported. -/
theorem c10_content_global_dedup (now : String) (st : ScanState) (f g : FileInfo)
    (hc : g.content = f.content)
    (h1 : (processFile noFail now st f).processed = st.processed + 1) :
    processFile noFail now (processFile noFail now st f) g =
      { processFile noFail now st f with
          skipped := (processFile noFail now st f).skipped + 1 } := by
  obtain ⟨hs, hd, ps, hp, hm, heq⟩ := processFile_success_elim now st f h1
  have hsz : ¬ g.size < 50 := by
    unfold FileInfo.size
    rw [hc]
    exact hs
  have hproc : is_processed (processFile noFail now st f).store g = true := by
    rw [heq]
    obtain ⟨r, hr, hid, hh⟩ := applyImport_mem_hash ps (file_hash f) now st.store
    unfold is_processed
    rw [List.any_eq_true]
    refine ⟨r, hr, ?_⟩
    simp [hh, file_hash, hc]
  rw [heq] at hproc ⊢
  simp [processFile, hsz, hproc]

/-- Same content as `fB` under a different filename stem and path. -/
def fB2 : FileInfo :=
  { stem := "другое-имя", parent_name := "q", mtime_iso := "2024-03-03T00:00:00",
    content := fB.content, read_fails := false }

theorem c10_content_global_dedup_witness :
    processFile noFail "t"
        (processFile noFail "t" { store := Store.empty, processed := 0, skipped := 0, errors := 0 } fB)
        fB2 =
      { processFile noFail "t" { store := Store.empty, processed := 0, skipped := 0, errors := 0 } fB with
          skipped := (processFile noFail "t" { store := Store.empty, processed := 0, skipped := 0, errors := 0 } fB).skipped + 1 } :=
  c10_content_global_dedup "t" { store := Store.empty, processed := 0, skipped := 0, errors := 0 }
    fB fB2 rfl (by decide)

/-! Claim C7 — timestamp fallback in the JSONL normalizer. -/

/-- The truthy timestamps the JSONL loop sees, in line order: one per
non-blank line whose parsed entry carries a truthy
`timestamp`/`ts` value. -/
def truthyTimestamps (lines : List String) : List Json :=
  lines.filterMap (fun l =>
    if pyStrip l = "" then none
    else
      match json_loads l with
      | some e =>
        if e.isObj then
          if (pyGet2 e "timestamp" "ts").truthy then some (pyGet2 e "timestamp" "ts") else none
        else none
      | none => none)

theorem truthyTimestamps_truthy (lines : List String) :
    ∀ x ∈ truthyTimestamps lines, x.truthy = true := by
  intro x hx
  rw [truthyTimestamps, List.mem_filterMap] at hx
  obtain ⟨l, _, hfx⟩ := hx
  split at hfx
  · exact absurd hfx (by simp)
  · split at hfx
    · split at hfx
      · split at hfx
        · cases hfx with
          | refl => assumption
        · exact absurd hfx (by simp)
      · exact absurd hfx (by simp)
    · exact absurd hfx (by simp)

/-- A successful loop step either skips a blank line or applies
`tsUpdate` for the parsed entry's timestamp to the trackers. -/
theorem jsonlStep_cases (line : String) (st st' : JState) (h : jsonlStep line st = Except.ok st') :
    (pyStrip line = "" ∧ st' = st) ∨
    ∃ entry, json_loads line = some entry ∧ entry.isObj = true ∧ ¬ pyStrip line = "" ∧
      st'.first_ts = (tsUpdate (pyGet2 entry "timestamp" "ts") st).first_ts ∧
      st'.last_ts = (tsUpdate (pyGet2 entry "timestamp" "ts") st).last_ts := by
  by_cases hbl : pyStrip line = ""
  · left
    unfold jsonlStep at h
    rw [if_pos hbl] at h
    exact ⟨hbl, (Except.ok.inj h).symm⟩
  · right
    unfold jsonlStep at h
    rw [if_neg hbl] at h
    cases hj : json_loads line with
    | none => rw [hj] at h; exact absurd h (by simp)
    | some entry =>
      rw [hj] at h
      dsimp only at h
      by_cases hio : entry.isObj
      · refine ⟨entry, rfl, hio, hbl, ?_⟩
        rw [if_pos hio] at h
        cases hb : jsonlBody entry (pyGet2 entry "timestamp" "ts")
            (tsUpdate (pyGet2 entry "timestamp" "ts") st).acc with
        | error e => rw [hb] at h; exact absurd h (by simp [Except.map])
        | ok a =>
          rw [hb] at h
          simp only [Except.map] at h
          cases h with
          | refl => exact ⟨rfl, rfl⟩
      · rw [if_neg hio] at h
        exact absurd h (by simp)

/-- Through the whole loop, the first tracker holds the first truthy
timestamp seen (unless already set) and the last tracker the last. -/
theorem jsonlLoop_ts : ∀ (lines : List String) (st st' : JState),
    jsonlLoop lines st = Except.ok st' →
    st'.first_ts = (if st.first_ts.truthy then st.first_ts
                    else (truthyTimestamps lines).headD st.first_ts) ∧
    st'.last_ts = (truthyTimestamps lines).getLastD st.last_ts := by
  intro lines
  induction lines with
  | nil =>
    intro st st' h
    cases h with
    | refl => simp [truthyTimestamps]
  | cons l rest ih =>
    intro st st' h
    obtain ⟨st1, h1, h2⟩ : ∃ st1, jsonlStep l st = Except.ok st1 ∧
        jsonlLoop rest st1 = Except.ok st' := by
      unfold jsonlLoop at h
      cases hs : jsonlStep l st with
      | error e => rw [hs] at h; exact absurd h (by simp [Bind.bind, Except.bind])
      | ok st1 =>
        rw [hs] at h
        simp only [Bind.bind, Except.bind] at h
        exact ⟨st1, rfl, h⟩
    rcases jsonlStep_cases l st st1 h1 with ⟨hb, heq⟩ | ⟨entry, hj, hobj, hnb, hf, hl⟩
    · rw [heq] at h2
      have hih := ih st st' h2
      have hT : truthyTimestamps (l :: rest) = truthyTimestamps rest := by
        simp [truthyTimestamps, List.filterMap_cons, hb]
      rw [hT]
      exact hih
    · have hih := ih st1 st' h2
      have hT : truthyTimestamps (l :: rest) =
          (if (pyGet2 entry "timestamp" "ts").truthy then
            pyGet2 entry "timestamp" "ts" :: truthyTimestamps rest
          else truthyTimestamps rest) := by
        by_cases ht' : (pyGet2 entry "timestamp" "ts").truthy <;>
          simp [truthyTimestamps, List.filterMap_cons, hnb, hj, hobj, ht']
      by_cases ht : (pyGet2 entry "timestamp" "ts").truthy
      · have hf1 : st1.first_ts =
            if st.first_ts.truthy then st.first_ts else pyGet2 entry "timestamp" "ts" := by
          rw [hf]; simp [tsUpdate, ht]
        have hl1 : st1.last_ts = pyGet2 entry "timestamp" "ts" := by
          rw [hl]; simp [tsUpdate, ht]
        rw [hT, if_pos ht]
        constructor
        · rw [hih.1, hf1]
          by_cases hft : st.first_ts.truthy
          · simp [hft]
          · simp [hft, ht]
        · rw [hih.2, hl1, List.getLastD_cons]
      · have hf1 : st1.first_ts = st.first_ts := by rw [hf]; simp [tsUpdate, ht]
        have hl1 : st1.last_ts = st.last_ts := by rw [hl]; simp [tsUpdate, ht]
        rw [hT, if_neg ht]
        rw [hih.1, hih.2, hf1, hl1]
        exact ⟨rfl, rfl⟩

/-- C7 (amended): for every JSONL line list that normalizes
successfully, if no line carries a truthy timestamp value
(`timestamp`/`ts`, with Python truthiness: null, empty string, 0 count
as absent) then the session's `started_at` and `ended_at` both equal
the file's modification time; otherwise `started_at` is the first and
`ended_at` the last truthy timestamp in line order. -/
theorem c7_timestamp_fallback (lines : List String) (fi : FileInfo) (ps : ParsedSession)
    (hok : normalize_jsonl_log lines fi = Except.ok ps) :
    (truthyTimestamps lines = [] →
       ps.started_at = Json.str fi.mtime_iso ∧ ps.ended_at = Json.str fi.mtime_iso) ∧
    (truthyTimestamps lines ≠ [] →
       ps.started_at = (truthyTimestamps lines).headD Json.null ∧
       ps.ended_at = (truthyTimestamps lines).getLastD Json.null) := by
  unfold normalize_jsonl_log at hok
  cases hl : jsonlLoop lines JState.init with
  | error e => rw [hl] at hok; exact absurd hok (by simp [Bind.bind, Except.bind])
  | ok st0 =>
    rw [hl] at hok
    simp only [Bind.bind, Except.bind, pure, Except.pure] at hok
    have hts := jsonlLoop_ts lines JState.init st0 hl
    have hinitf : JState.init.first_ts = Json.null := rfl
    have hinitl : JState.init.last_ts = Json.null := rfl
    rw [hinitf, hinitl] at hts
    have hps := (Except.ok.inj hok).symm
    constructor
    · intro hT
      rw [hT] at hts
      simp only [List.headD_nil, List.getLastD_nil] at hts
      have hf0 : st0.first_ts = Json.null := by
        have := hts.1
        simpa using this
      rw [hps]
      simp [hf0, Json.truthy]
    · intro hT
      cases hc : truthyTimestamps lines with
      | nil => exact absurd hc hT
      | cons t ts =>
        rw [hc] at hts
        have htr : t.truthy = true :=
          truthyTimestamps_truthy lines t (by rw [hc]; exact List.mem_cons_self t ts)
        have hf0 : st0.first_ts = t := by
          have := hts.1
          simpa using this
        subst hps
        simp [hf0, htr, hts.2]

/-- A one-line JSONL file whose only line carries the non-null (but
falsy) timestamp `""`. -/
def c7Line : String := "\x7b\"timestamp\": \"\"\x7d"

def c7Fi : FileInfo :=
  { stem := "c7", parent_name := "p", mtime_iso := "2024-05-05T12:00:00",
    content := c7Line, read_fails := false }

/-- C7 counterexample: the claim says that when some line carries a
non-null timestamp, `started_at` is the first such non-null timestamp.
This file's single line carries the non-null timestamp `""`, yet the
code falls back to the file modification time (Python truthiness
treats `""` as absent), so `started_at` is not `""`. -/
theorem c7_timestamp_counterexample :
    json_loads c7Line = some (Json.obj [("timestamp", Json.str "")]) ∧
    Json.str "" ≠ Json.null ∧
    ((normalize_jsonl_log [c7Line] c7Fi).toOption.map ParsedSession.started_at) =
      some (Json.str "2024-05-05T12:00:00") ∧
    ((normalize_jsonl_log [c7Line] c7Fi).toOption.map ParsedSession.started_at) ≠
      some (Json.str "") := by
  decide

def psC7 : ParsedSession := ((normalize_jsonl_log [c7Line] c7Fi).toOption).getD psDefault

theorem c7_timestamp_fallback_witness :
    psC7.started_at = Json.str "2024-05-05T12:00:00" ∧
    psC7.ended_at = Json.str "2024-05-05T12:00:00" :=
  have h := c7_timestamp_fallback [c7Line] c7Fi psC7 (by decide)
  have h2 := h.1 (by decide)
  ⟨h2.1, h2.2⟩

/-! Claim C8 — tag derivation. -/

theorem mem_insertIfAbsent {α : Type} [DecidableEq α] (l : List α) (x a : α) :
    a ∈ insertIfAbsent l x ↔ a ∈ l ∨ a = x := by
  unfold insertIfAbsent
  split
  · rename_i hx
    constructor
    · exact Or.inl
    · rintro (h | rfl)
      · exact h
      · exact hx
  · simp [List.mem_append]

/-- Membership in a guarded set-insert fold. -/
theorem mem_foldl_ins {α : Type} [DecidableEq α] (p : α → Bool) (g : α → String) :
    ∀ (l : List α) (init : List String) (t : String),
      t ∈ l.foldl (fun acc x => if p x then insertIfAbsent acc (g x) else acc) init ↔
        t ∈ init ∨ ∃ x ∈ l, p x = true ∧ t = g x := by
  intro l
  induction l with
  | nil => simp
  | cons a l ih =>
    intro init t
    rw [List.foldl_cons]
    by_cases hp : p a
    · rw [if_pos hp, ih, mem_insertIfAbsent]
      constructor
      · rintro ((h | rfl) | ⟨x, hx, hpx, rfl⟩)
        · exact Or.inl h
        · exact Or.inr ⟨a, List.mem_cons_self a l, hp, rfl⟩
        · exact Or.inr ⟨x, List.mem_cons_of_mem a hx, hpx, rfl⟩
      · rintro (h | ⟨x, hx, hpx, rfl⟩)
        · exact Or.inl (Or.inl h)
        · rcases List.mem_cons.mp hx with rfl | hx2
          · exact Or.inl (Or.inr rfl)
          · exact Or.inr ⟨x, hx2, hpx, rfl⟩
    · rw [if_neg hp, ih]
      constructor
      · rintro (h | ⟨x, hx, hpx, rfl⟩)
        · exact Or.inl h
        · exact Or.inr ⟨x, List.mem_cons_of_mem a hx, hpx, rfl⟩
      · rintro (h | ⟨x, hx, hpx, rfl⟩)
        · exact Or.inl h
        · rcases List.mem_cons.mp hx with rfl | hx2
          · exact absurd hpx (by simp [hp])
          · exact Or.inr ⟨x, hx2, hpx, rfl⟩

theorem mem_foldl_insertIfAbsent {α : Type} [DecidableEq α] :
    ∀ (l : List α) (init : List α) (a : α),
      a ∈ l.foldl (fun acc n => insertIfAbsent acc n) init ↔ a ∈ init ∨ a ∈ l := by
  intro l
  induction l with
  | nil => simp
  | cons x l ih =>
    intro init a
    rw [List.foldl_cons, ih, mem_insertIfAbsent]
    constructor
    · rintro ((h | rfl) | h)
      · exact Or.inl h
      · exact Or.inr (List.mem_cons_self _ _)
      · exact Or.inr (List.mem_cons_of_mem _ h)
    · rintro (h | h)
      · exact Or.inl (Or.inl h)
      · rcases List.mem_cons.mp h with rfl | h2
        · exact Or.inl (Or.inr rfl)
        · exact Or.inr h2

theorem mem_distinctNames (l : List Json) (n : Json) : n ∈ distinctNames l ↔ n ∈ l := by
  unfold distinctNames
  rw [mem_foldl_insertIfAbsent]
  simp

/-- Shortening a needle preserves a prefix match. -/
theorem startsWithL_append : ∀ (cs a b : List Char),
    startsWithL cs (a ++ b) = true → startsWithL cs a = true := by
  intro cs a
  induction a generalizing cs with
  | nil => intro b _; cases cs <;> rfl
  | cons x a ih =>
    intro b h
    cases cs with
    | nil => exact absurd h (by simp [startsWithL])
    | cons y cs =>
      simp only [List.cons_append, startsWithL, Bool.and_eq_true] at h ⊢
      exact ⟨h.1, ih cs b h.2⟩

/-- A string containing a needle contains every prefix of the
needle. -/
theorem containsL_append : ∀ (h a b : List Char),
    containsL h (a ++ b) = true → containsL h a = true := by
  intro h
  induction h with
  | nil =>
    intro a b hc
    simp only [containsL, List.isEmpty_eq_true, List.append_eq_nil] at hc ⊢
    exact hc.1
  | cons c t ih =>
    intro a b hc
    simp only [containsL, Bool.or_eq_true] at hc ⊢
    rcases hc with hc | hc
    · exact Or.inl (startsWithL_append _ a b hc)
    · exact Or.inr (ih a b hc)

/-- Membership characterization of `_generate_tags`: a tag is
generated exactly for each truthy tool name (rendered `tool:<name>`)
and for each keyword group with a hit in the space-joined, case-folded
message content. -/
theorem generate_tags_mem (ps : ParsedSession) (t : String) :
    t ∈ generate_tags ps ↔
      (∃ tc ∈ ps.tool_calls, tc.tool_name.truthy = true ∧ t = "tool:" ++ pyStr tc.tool_name) ∨
      (∃ p ∈ tagPatterns, (p.2.any (fun kw => strContains (allContent ps) kw)) = true ∧ t = p.1) := by
  have hpat := mem_foldl_ins
    (fun pat : String × List String => pat.2.any (fun kw => strContains (allContent ps) kw))
    (fun pat => pat.1) tagPatterns
    ((distinctNames (ps.tool_calls.map (fun tc => tc.tool_name))).foldl
      (fun acc tool => if tool.truthy then insertIfAbsent acc ("tool:" ++ pyStr tool) else acc) []) t
  have htool := mem_foldl_ins Json.truthy (fun tool => "tool:" ++ pyStr tool)
    (distinctNames (ps.tool_calls.map (fun tc => tc.tool_name))) [] t
  refine Iff.trans (hpat : t ∈ generate_tags ps ↔ _) ?_
  constructor
  · rintro (h | h)
    · rcases htool.mp h with h2 | ⟨n, hn, htr, rfl⟩
      · exact absurd h2 (List.not_mem_nil t)
      · rcases List.mem_map.mp ((mem_distinctNames _ n).mp hn) with ⟨tc, htc, rfl⟩
        exact Or.inl ⟨tc, htc, htr, rfl⟩
    · exact Or.inr h
  · rintro (⟨tc, htc, htr, rfl⟩ | h)
    · refine Or.inl (htool.mpr (Or.inr ⟨tc.tool_name, ?_, htr, rfl⟩))
      exact (mem_distinctNames _ _).mpr (List.mem_map.mpr ⟨tc, htc, rfl⟩)
    · exact Or.inr h

theorem foldl_tags_eq {α : Type} (g : Store → α → Store)
    (hg : ∀ s a, (g s a).session_tags = s.session_tags) :
    ∀ (l : List α) (s : Store), (l.foldl g s).session_tags = s.session_tags := by
  intro l
  induction l with
  | nil => intro s; rfl
  | cons a l ih => intro s; rw [List.foldl_cons, ih, hg]

theorem insertMessageWithTools_tags (ps : ParsedSession) (s : Store) (m : NormMessage) :
    (insertMessageWithTools ps s m).session_tags = s.session_tags := by
  unfold insertMessageWithTools
  rw [foldl_tags_eq]
  intro s a; split <;> rfl

theorem insertTag_mem (s : Store) (sid : Json) (t : String) (r : TagRow)
    (h : r ∈ (insertTag s sid t).session_tags) :
    r ∈ s.session_tags ∨ r.auto_generated = true := by
  unfold insertTag at h
  split at h
  · exact Or.inl h
  · rcases List.mem_append.mp h with h2 | h2
    · exact Or.inl h2
    · rcases List.mem_singleton.mp h2 with rfl
      exact Or.inr rfl

theorem foldl_insertTag_mem (sid : Json) :
    ∀ (l : List String) (s : Store) (r : TagRow),
      r ∈ (l.foldl (fun acc t => insertTag acc sid t) s).session_tags →
      r ∈ s.session_tags ∨ r.auto_generated = true := by
  intro l
  induction l with
  | nil => intro s r h; exact Or.inl h
  | cons t l ih =>
    intro s r h
    rw [List.foldl_cons] at h
    rcases ih (insertTag s sid t) r h with h2 | h2
    · exact insertTag_mem s sid t r h2
    · exact Or.inr h2

/-- Every tag row the importer adds is marked auto-generated. -/
theorem applyImport_tags_auto (ps : ParsedSession) (fh now : String) (s : Store) (r : TagRow)
    (h : r ∈ (applyImport ps fh now s).session_tags) :
    r ∈ s.session_tags ∨ r.auto_generated = true := by
  unfold applyImport at h
  rcases foldl_insertTag_mem ps.session_id _ _ r h with h2 | h2
  · rw [foldl_tags_eq (insertTokenUsage ps) (fun s tu => rfl),
        foldl_tags_eq (insertMessageWithTools ps) (insertMessageWithTools_tags ps)] at h2
    exact Or.inl h2
  · exact Or.inr h2

/-- Duplicate tag insertion is a no-op. -/
theorem insertTag_idem (s : Store) (sid : Json) (t : String) :
    insertTag (insertTag s sid t) sid t = insertTag s sid t := by
  by_cases h : s.session_tags.any (fun r => r.session_id == sid && r.tag == t)
  · simp [insertTag, h]
  · simp [insertTag, h, List.any_append]

/-- C8 (amended): tags are exactly one `tool:<name>` per distinct
truthy tool name plus one group tag per keyword group whose keyword
occurs in the SPACE-SEPARATED, case-folded join of the message
contents (the code joins contents with `' '.join`, not plain
concatenation); a session whose joined content contains "fix the bug"
receives the debugging tag; a session with no keyword hit and no
truthy tool name gets no tags; every stored generated tag is marked
auto-generated; duplicate tag insertion is a no-op. -/
theorem c8_tag_derivation_amended (ps : ParsedSession) :
    (∀ t, t ∈ generate_tags ps ↔
      (∃ tc ∈ ps.tool_calls, tc.tool_name.truthy = true ∧ t = "tool:" ++ pyStr tc.tool_name) ∨
      (∃ p ∈ tagPatterns, (p.2.any (fun kw => strContains (allContent ps) kw)) = true ∧ t = p.1)) ∧
    (strContains (allContent ps) "fix the bug" = true → "debugging" ∈ generate_tags ps) ∧
    ((∀ tc ∈ ps.tool_calls, tc.tool_name.truthy = false) →
     (∀ p ∈ tagPatterns, p.2.any (fun kw => strContains (allContent ps) kw) = false) →
     generate_tags ps = []) ∧
    (∀ fh now s r, r ∈ (applyImport ps fh now s).session_tags →
      r ∈ s.session_tags ∨ r.auto_generated = true) ∧
    (∀ s sid tag, insertTag (insertTag s sid tag) sid tag = insertTag s sid tag) := by
  refine ⟨generate_tags_mem ps, ?_, ?_, fun fh now s r => applyImport_tags_auto ps fh now s r,
    fun s sid tag => insertTag_idem s sid tag⟩
  · intro hfix
    have hsplit : ("fix the bug" : String).toList = ("fix" : String).toList ++ (" the bug" : String).toList := by
      decide
    have hfix3 : strContains (allContent ps) "fix" = true := by
      unfold strContains at hfix ⊢
      rw [hsplit] at hfix
      exact containsL_append _ _ _ hfix
    refine (generate_tags_mem ps "debugging").mpr (Or.inr
      ⟨("debugging", ["error", "bug", "fix", "debug", "issue"]), by simp [tagPatterns], ?_, rfl⟩)
    exact List.any_eq_true.mpr ⟨"fix", by simp, hfix3⟩
  · intro htool hpat
    rw [List.eq_nil_iff_forall_not_mem]
    intro t ht
    rcases (generate_tags_mem ps t).mp ht with ⟨tc, htc, htr, _⟩ | ⟨p, hp, hany, _⟩
    · rw [htool tc htc] at htr; exact absurd htr (by simp)
    · rw [hpat p hp] at hany; exact absurd hany (by simp)

def c8msg (seq : Int) (c : String) : NormMessage :=
  { sequence := seq, timestamp := Json.null, role := Json.str "user",
    content := c, content_type := "text" }

/-- A session whose three message contents concatenate to
"fix the bug". -/
def c8Ps : ParsedSession :=
  { session_id := Json.str "s", project_path := Json.null, started_at := Json.null,
    ended_at := Json.null,
    messages := [c8msg 0 "fi", c8msg 1 "x the bu", c8msg 2 "g"],
    tool_calls := [], token_usage := [],
    tokens_in := Json.num 0, tokens_out := Json.num 0, metadata := Json.null }

/-- C8 counterexample: the claim keys keyword tags to the case-folded
CONCATENATION of all message contents.  This session's contents
concatenate to "fix the bug", which contains the debugging keywords
"fix" and "bug", yet the code (which joins contents with spaces,
yielding "fi x the bu g") generates no tags at all. -/
theorem c8_tag_derivation_counterexample :
    c8Ps.messages.map NormMessage.content = ["fi", "x the bu", "g"] ∧
    strContains (pyLower ("fi" ++ "x the bu" ++ "g")) "fix" = true ∧
    strContains (pyLower ("fi" ++ "x the bu" ++ "g")) "bug" = true ∧
    generate_tags c8Ps = [] ∧
    "debugging" ∉ generate_tags c8Ps := by
  decide

/-- A session with "fix the bug" inside one message. -/
def psFix : ParsedSession :=
  { c8Ps with messages := [c8msg 0 "Please fix the bug in the parser"] }

theorem c8_tag_derivation_amended_witness :
    "debugging" ∈ generate_tags psFix ∧ generate_tags c8Ps = [] :=
  ⟨(c8_tag_derivation_amended psFix).2.1 (by decide),
   (c8_tag_derivation_amended c8Ps).2.2.1 (by decide) (by decide)⟩

/-! Claim C6 — JSON/JSONL format equivalence for minimal
conversations. -/

theorem skipWs_eq_dropWsL : ∀ l : List Char, skipWs l = dropWsL l := by
  intro l
  induction l with
  | nil => rfl
  | cons c cs ih => simp [skipWs, dropWsL, ih]

theorem parseValue_nil (fuel : Nat) : parseValue fuel [] = none := by
  cases fuel <;> rfl

theorem dropWsL_eq_nil_ws : ∀ B : List Char, dropWsL B = [] → ∀ c ∈ B, isWsChar c = true := by
  intro B
  induction B with
  | nil => intro _ c hc; exact absurd hc (List.not_mem_nil c)
  | cons x xs ih =>
    intro h c hc
    by_cases hx : isWsChar x
    · rw [dropWsL, if_pos hx] at h
      rcases List.mem_cons.mp hc with rfl | hc2
      · exact hx
      · exact ih h c hc2
    · rw [dropWsL, if_neg hx] at h
      exact absurd h (by simp)

theorem dropWsL_nil_or_head : ∀ l : List Char,
    dropWsL l = [] ∨ ∃ c rest, dropWsL l = c :: rest ∧ isWsChar c = false := by
  intro l
  induction l with
  | nil => exact Or.inl rfl
  | cons x xs ih =>
    by_cases hx : isWsChar x
    · rw [dropWsL, if_pos hx]; exact ih
    · rw [dropWsL, if_neg hx]
      exact Or.inr ⟨x, xs, rfl, by simpa using hx⟩

/-- A line that strips to nothing cannot parse as JSON. -/
theorem blank_json_loads (l : String) (h : pyStrip l = "") : json_loads l = none := by
  have hX : (dropWsL (dropWsL l.toList).reverse).reverse = [] := by
    have := congrArg String.data h
    simpa [pyStrip] using this
  have h2 : dropWsL (dropWsL l.toList).reverse = [] := by
    simpa using congrArg List.reverse hX
  have hws : ∀ c ∈ (dropWsL l.toList).reverse, isWsChar c = true :=
    dropWsL_eq_nil_ws _ h2
  have h3 : dropWsL l.toList = [] := by
    rcases dropWsL_nil_or_head l.toList with h4 | ⟨c, rest, h4, h5⟩
    · exact h4
    · have : isWsChar c = true := hws c (by rw [h4]; simp)
      rw [this] at h5
      exact absurd h5 (by simp)
  unfold json_loads
  rw [skipWs_eq_dropWsL, h3, parseValue_nil]

/-- The roles a minimal conversation uses. -/
inductive CRole where
  | user : CRole
  | assistant : CRole
deriving DecidableEq, Repr

def roleStr : CRole → String
  | CRole.user => "user"
  | CRole.assistant => "assistant"

/-- One message of a minimal conversation as an entry of the
whole-file JSON `messages` array. -/
def c6EntryJson (r : CRole) (c : String) : Json :=
  Json.obj [("role", Json.str (roleStr r)), ("content", Json.str c)]

/-- The same message as one typed JSONL entry. -/
def c6EntryJsonl (r : CRole) (c : String) : Json :=
  Json.obj [("type", Json.str (roleStr r)), ("message", c6EntryJson r c)]

/-- The whole conversation as a single JSON object. -/
def c6WholeJson (conv : List (CRole × String)) : Json :=
  Json.obj [("messages", Json.arr (conv.map (fun p => c6EntryJson p.1 p.2)))]

/-- The normalized messages both normalizers produce for a minimal
conversation. -/
def c6Msgs : List (CRole × String) → Int → List NormMessage
  | [], _ => []
  | (r, c) :: rest, idx =>
    { sequence := idx, timestamp := Json.null, role := Json.str (roleStr r),
      content := c, content_type := "text" } :: c6Msgs rest (idx + 1)

theorem c6Msgs_length : ∀ (conv : List (CRole × String)) (idx : Int),
    (c6Msgs conv idx).length = conv.length := by
  intro conv
  induction conv with
  | nil => intro idx; rfl
  | cons p rest ih => intro idx; obtain ⟨r, c⟩ := p; simp [c6Msgs, ih]

theorem jsonMsgsLoop_c6 : ∀ (conv : List (CRole × String)) (idx : Int),
    jsonMsgsLoop (conv.map (fun p => c6EntryJson p.1 p.2)) idx =
      Except.ok (c6Msgs conv idx, []) := by
  intro conv
  induction conv with
  | nil => intro idx; rfl
  | cons p rest ih =>
    intro idx
    obtain ⟨r, c⟩ := p
    have he : extract_content (c6EntryJson r c) = Except.ok c := by cases r <;> rfl
    have htc : jsonToolCallsOf idx (c6EntryJson r c) = Except.ok [] := by cases r <;> rfl
    have hts : pyGet2 (c6EntryJson r c) "timestamp" "ts" = Json.null := by cases r <;> rfl
    have hrl : (c6EntryJson r c).getD "role" (Json.str "unknown") = Json.str (roleStr r) := by
      cases r <;> rfl
    have hobj : (c6EntryJson r c).isObj = true := by cases r <;> rfl
    simp only [List.map_cons, jsonMsgsLoop, hobj, he, htc, hts, hrl, ih, c6Msgs,
      Bind.bind, Except.bind]
    rfl

theorem jsonlBody_c6 (r : CRole) (c : String) (acc : JAcc) :
    jsonlBody (c6EntryJsonl r c) Json.null acc =
      Except.ok { acc with messages := acc.messages ++
        [{ sequence := (acc.messages.length : Int), timestamp := Json.null,
           role := Json.str (roleStr r), content := c, content_type := "text" }] } := by
  cases r <;> rfl

theorem jsonlLoop_c6 : ∀ (conv : List (CRole × String)) (lines : List String) (st : JState),
    lines.map json_loads = conv.map (fun p => some (c6EntryJsonl p.1 p.2)) →
    jsonlLoop lines st = Except.ok
      { st with acc := { st.acc with
          messages := st.acc.messages ++ c6Msgs conv (st.acc.messages.length : Int) } } := by
  intro conv
  induction conv with
  | nil =>
    intro lines st h
    have hl : lines = [] := List.map_eq_nil_iff.mp (by rw [h]; rfl)
    subst hl
    simp [jsonlLoop, c6Msgs]
  | cons p rest ih =>
    intro lines st h
    obtain ⟨r, c⟩ := p
    cases lines with
    | nil => exact absurd h (by simp)
    | cons l ls =>
      simp only [List.map_cons, List.cons.injEq] at h
      obtain ⟨hl, hls⟩ := h
      have hnb : ¬ pyStrip l = "" := by
        intro hb
        rw [blank_json_loads l hb] at hl
        exact absurd hl (by simp)
      have hts : pyGet2 (c6EntryJsonl r c) "timestamp" "ts" = Json.null := by cases r <;> rfl
      have hobj : (c6EntryJsonl r c).isObj = true := by cases r <;> rfl
      have hstep : jsonlStep l st = Except.ok
          { st with acc := { st.acc with messages := st.acc.messages ++
            [{ sequence := (st.acc.messages.length : Int), timestamp := Json.null,
               role := Json.str (roleStr r), content := c, content_type := "text" }] } } := by
        unfold jsonlStep
        rw [if_neg hnb, hl]
        dsimp only
        rw [if_pos hobj, hts]
        have htsu : tsUpdate Json.null st = st := by simp [tsUpdate, Json.truthy]
        rw [htsu, jsonlBody_c6]
        rfl
      unfold jsonlLoop
      rw [hstep]
      simp only [Bind.bind, Except.bind]
      rw [ih ls _ hls]
      dsimp only
      simp [c6Msgs, List.append_assoc, List.length_append, List.singleton_append]

theorem normalize_json_c6 (conv : List (CRole × String)) (fj : FileInfo) :
    normalize_json_log (c6WholeJson conv) fj = Except.ok
      { session_id := Json.str fj.stem, project_path := Json.null,
        started_at := Json.null, ended_at := Json.null,
        messages := c6Msgs conv 0, tool_calls := [], token_usage := [],
        tokens_in := Json.num 0, tokens_out := Json.num 0,
        metadata := c6WholeJson conv } := by
  have hml := jsonMsgsLoop_c6 conv 0
  simp [normalize_json_log, c6WholeJson, Bind.bind, Except.bind, pure, Except.pure,
    Json.isObj, Json.getD, Json.getKey?, lookupLast, pyGet2, pyIterElems, Json.truthy, hml]

theorem normalize_jsonl_c6 (conv : List (CRole × String)) (lines : List String) (fl : FileInfo)
    (h : lines.map json_loads = conv.map (fun p => some (c6EntryJsonl p.1 p.2))) :
    normalize_jsonl_log lines fl = Except.ok
      { session_id := Json.str fl.stem,
        project_path :=
          if pyStartsWith fl.parent_name "-" then Json.str (replaceChar fl.parent_name '-' '/')
          else Json.null,
        started_at := Json.str fl.mtime_iso, ended_at := Json.str fl.mtime_iso,
        messages := c6Msgs conv 0, tool_calls := [], token_usage := [],
        tokens_in := Json.num 0, tokens_out := Json.num 0,
        metadata := Json.obj [("source", Json.str "jsonl"),
                              ("line_count", Json.num lines.length)] } := by
  have hloop := jsonlLoop_c6 conv lines JState.init h
  simp only [JState.init] at hloop
  simp [normalize_jsonl_log, JState.init, hloop, Bind.bind, Except.bind, Json.truthy]
  rfl

/-- C6: a minimal conversation expressed both as one whole-file JSON
object (a `messages` array) and as JSONL lines (one typed entry per
message) normalizes to the same message count, the same roles, in the
same sequence order. -/
theorem c6_format_equivalence (conv : List (CRole × String)) (lines : List String)
    (fj fl : FileInfo)
    (h : lines.map json_loads = conv.map (fun p => some (c6EntryJsonl p.1 p.2))) :
    ∃ a b, normalize_json_log (c6WholeJson conv) fj = Except.ok a ∧
      normalize_jsonl_log lines fl = Except.ok b ∧
      a.messages.length = conv.length ∧ b.messages.length = conv.length ∧
      a.messages.map (fun m => m.role) = b.messages.map (fun m => m.role) ∧
      a.messages.map (fun m => m.sequence) = b.messages.map (fun m => m.sequence) := by
  refine ⟨_, _, normalize_json_c6 conv fj, normalize_jsonl_c6 conv lines fl h,
    c6Msgs_length conv 0, c6Msgs_length conv 0, rfl, rfl⟩

def c6conv : List (CRole × String) := [(CRole.user, "hello"), (CRole.assistant, "hi")]

def c6lines : List String :=
  ["\x7b\"type\": \"user\", \"message\": \x7b\"role\": \"user\", \"content\": \"hello\"\x7d\x7d",
   "\x7b\"type\": \"assistant\", \"message\": \x7b\"role\": \"assistant\", \"content\": \"hi\"\x7d\x7d"]

def c6fj : FileInfo :=
  { stem := "c6j", parent_name := "p", mtime_iso := "2024-01-01T00:00:00",
    content := "", read_fails := false }

def c6fl : FileInfo :=
  { stem := "c6l", parent_name := "p", mtime_iso := "2024-01-02T00:00:00",
    content := "", read_fails := false }

theorem c6_format_equivalence_witness :
    ∃ a b, normalize_json_log (c6WholeJson c6conv) c6fj = Except.ok a ∧
      normalize_jsonl_log c6lines c6fl = Except.ok b ∧
      a.messages.length = c6conv.length ∧ b.messages.length = c6conv.length ∧
      a.messages.map (fun m => m.role) = b.messages.map (fun m => m.role) ∧
      a.messages.map (fun m => m.sequence) = b.messages.map (fun m => m.sequence) :=
  c6_format_equivalence c6conv c6lines c6fj c6fl (by decide)

/-! Claim C1 — idempotence of a second scan. -/

/-- A scan over files that are all above the size filter and all
already imported (by content hash) only counts skips: store and the
other counters are untouched. -/
theorem scan_all_skip (F : FileInfo → Option Nat) (now : String) :
    ∀ (files : List FileInfo) (st : ScanState),
      (∀ f ∈ files, ¬ f.size < 50 ∧ is_processed st.store f = true) →
      List.foldl (processFile F now) st files = { st with skipped := st.skipped + files.length } := by
  intro files
  induction files with
  | nil => intro st _; rfl
  | cons f rest ih =>
    intro st h
    obtain ⟨hs, hd⟩ := h f (List.mem_cons_self f rest)
    have hskip : processFile F now st f = { st with skipped := st.skipped + 1 } := by
      simp [processFile, hs, hd]
    rw [List.foldl_cons, hskip, ih { st with skipped := st.skipped + 1 }
      (fun g hg => h g (List.mem_cons_of_mem f hg))]
    simp only [List.length_cons]
    have harith : st.skipped + 1 + rest.length = st.skipped + (rest.length + 1) := by omega
    rw [harith]

/-- A session row (id, hash) survives the scan of any files none of
which parses to that session id. -/
theorem scan_preserve_row (F : FileInfo → Option Nat) (now : String) :
    ∀ (rest : List FileInfo) (st : ScanState) (i : Json) (h : String),
      (∃ r ∈ st.store.sessions, r.id = i ∧ r.file_hash = h) →
      (∀ g ∈ rest, parsedSid g ≠ some i) →
      ∃ r ∈ (List.foldl (processFile F now) st rest).store.sessions,
        r.id = i ∧ r.file_hash = h := by
  intro rest
  induction rest with
  | nil => intro st i h hex _; exact hex
  | cons g rest ih =>
    intro st i h hex hsid
    rw [List.foldl_cons]
    refine ih (processFile F now st g) i h ?_ (fun g2 hg2 => hsid g2 (List.mem_cons_of_mem g hg2))
    rcases processFile_store_cases F now st g with hsame | ⟨ps, hp, happ⟩
    · rw [hsame]; exact hex
    · rw [happ]
      refine applyImport_preserve ps (file_hash g) now st.store i h ?_ hex
      intro hcontra
      exact hsid g (List.mem_cons_self g rest) (by simp [parsedSid, hp, hcontra])

/-- When a fault-free scan imports every file (processed grows by the
full file count) and the files derive pairwise distinct session ids,
every file is above the size filter and its content hash ends up on
some session row of the final store. -/
theorem scan_full_import (now : String) :
    ∀ (files : List FileInfo) (st : ScanState),
      List.Pairwise (fun f g => parsedSid f ≠ parsedSid g) files →
      (List.foldl (processFile noFail now) st files).processed = st.processed + files.length →
      ∀ f ∈ files, ¬ f.size < 50 ∧
        ∃ r ∈ (List.foldl (processFile noFail now) st files).store.sessions,
          r.file_hash = file_hash f := by
  intro files
  induction files with
  | nil => intro st _ _ f hf; exact absurd hf (List.not_mem_nil f)
  | cons f rest ih =>
    intro st hp h
    obtain ⟨hpf, hprest⟩ := List.pairwise_cons.mp hp
    rw [List.foldl_cons] at h
    have hb1 := foldl_processed_le noFail now rest (processFile noFail now st f)
    have hb2 := processFile_processed_le noFail now st f
    simp only [List.length_cons] at h
    have hstep : (processFile noFail now st f).processed = st.processed + 1 := by omega
    have hrest : (List.foldl (processFile noFail now) (processFile noFail now st f) rest).processed =
        (processFile noFail now st f).processed + rest.length := by omega
    obtain ⟨hs, hd, ps, hparse, hm, heq⟩ := processFile_success_elim now st f hstep
    intro g hg
    rcases List.mem_cons.mp hg with rfl | hg2
    · refine ⟨hs, ?_⟩
      rw [List.foldl_cons]
      have hex : ∃ r ∈ (processFile noFail now st g).store.sessions,
          r.id = ps.session_id ∧ r.file_hash = file_hash g := by
        rw [heq]
        exact applyImport_mem_hash ps (file_hash g) now st.store
      have hsid : ∀ g2 ∈ rest, parsedSid g2 ≠ some ps.session_id := by
        intro g2 hg2 hcontra
        exact hpf g2 hg2 (by rw [hcontra]; simp [parsedSid, hparse])
      obtain ⟨r, hr, _, hh⟩ :=
        scan_preserve_row noFail now rest (processFile noFail now st g) ps.session_id
          (file_hash g) hex hsid
      exact ⟨r, hr, hh⟩
    · have := ih (processFile noFail now st f) hprest hrest g hg2
      rw [List.foldl_cons]
      exact this

/-- C1 (amended): for every file set whose files derive pairwise
distinct session ids, if a fault-free scan imported every file
(processed = number of files), then a second scan over the unchanged
set imports nothing: processed = 0, every file is counted as skipped,
no errors, and the store is left exactly as the first scan left it —
re-import of a file whose content hash is unchanged is a no-op on the
store. -/
theorem c1_scan_idempotence (files : List FileInfo) (now now2 : String) (s0 : Store)
    (hdist : files.Pairwise (fun f g => parsedSid f ≠ parsedSid g))
    (h1 : (process_all noFail now files s0).processed = files.length) :
    process_all noFail now2 files (process_all noFail now files s0).store =
      { store := (process_all noFail now files s0).store, processed := 0,
        skipped := files.length, errors := 0 } := by
  have hfull := scan_full_import now files { store := s0, processed := 0, skipped := 0, errors := 0 }
    hdist (by simpa [process_all] using h1)
  have hskip := scan_all_skip noFail now2 files
    { store := (process_all noFail now files s0).store, processed := 0, skipped := 0, errors := 0 }
    (by
      intro f hf
      obtain ⟨hs, r, hr, hh⟩ := hfull f hf
      refine ⟨hs, ?_⟩
      unfold is_processed
      rw [List.any_eq_true]
      exact ⟨r, by simpa [process_all] using hr, by simp [hh]⟩)
  unfold process_all at hskip ⊢
  rw [hskip]
  simp

/-- Two whole-file JSON logs with the same filename stem (hence the
same derived session id "s") but different contents. -/
def fD1 : FileInfo :=
  { stem := "s", parent_name := "p1", mtime_iso := "2024-01-01T00:00:00",
    content := "\x7b\"messages\": [\x7b\"role\": \"user\", \"content\": \"first version of this conversation\"\x7d]\x7d",
    read_fails := false }

def fD2 : FileInfo :=
  { stem := "s", parent_name := "p2", mtime_iso := "2024-01-01T00:00:00",
    content := "\x7b\"messages\": [\x7b\"role\": \"user\", \"content\": \"second version of this conversation\"\x7d]\x7d",
    read_fails := false }

/-- C1 counterexample: both files are imported by the first scan
(processed = 2 = number of files, nothing changed in between), yet the
second scan re-imports both (processed = 2, not 0; skipped = 0, not
2).  Each import replaces the single session row `id = "s"`, evicting
the other file's content hash from the store, so neither file is ever
recognized as already processed. -/
theorem c1_scan_idempotence_counterexample :
    (process_all noFail "t" [fD1, fD2] Store.empty).processed = 2 ∧
    (process_all noFail "t2" [fD1, fD2]
        (process_all noFail "t" [fD1, fD2] Store.empty).store).processed = 2 ∧
    (process_all noFail "t2" [fD1, fD2]
        (process_all noFail "t" [fD1, fD2] Store.empty).store).processed ≠ 0 ∧
    (process_all noFail "t2" [fD1, fD2]
        (process_all noFail "t" [fD1, fD2] Store.empty).store).skipped = 0 := by
  refine ⟨by decide, by decide, by decide, by decide⟩

theorem c1_scan_idempotence_witness :
    process_all noFail "t2" [fB] (process_all noFail "t" [fB] Store.empty).store =
      { store := (process_all noFail "t" [fB] Store.empty).store, processed := 0,
        skipped := 1, errors := 0 } :=
  c1_scan_idempotence [fB] "t" "t2" Store.empty (by simp) (by decide)
